import Mathlib

/-! # tsh: the job table, the reaper, the built-ins, the signal handlers and parseline

A shallow embedding of `csapplab/4.shell lab/tsh.c`.

* C `int` and `pid_t` values are embedded as `Int`.  The two additions of the
  program (`nextjid++` and `maxjid(jobs)+1`) are exact: this is the C semantics
  whenever the result is representable, and signed overflow is undefined in C.
  The number `sscanf` reads is cut to the 32 bits of the `int` it is stored in.
* A write outside `array[MAXLINE]` or `argv[MAXARGS]` in `parseline` is the result
  `none`.
* The global array `jobs[MAXJOBS]` is the list of its slots in index order; a
  loop `for (i = 0; i < MAXJOBS; i++)` visits the slots of the list in order.
  A pointer `&jobs[i]` is the index `i`.
* The globals `nextjid` and `verbose` travel with the table in `Shell`.
* `printf` output is the list of the strings printed, `kill` calls are recorded
  as effects, and a call `waitfg(pid)` is returned as a request to wait, because
  the loop of `waitfg` only ends through a handler run.
* The blocked-signal mask is explicit state in the `_traced` routines, which log
  the creation of the child and every write to the table with the mask in force.
* Characters are compared by their codes: 32 space, 38 `&`, 39 single quote.
-/

namespace Tsh

/-! ## Constants and the job struct -/

/-- `#define MAXJOBS 16`: max jobs at any point in time. -/
def MAXJOBS : Nat := 16

/-- `#define UNDEF 0`. -/
def UNDEF : Int := 0
/-- `#define FG 1`: running in foreground. -/
def FG : Int := 1
/-- `#define BG 2`: running in background. -/
def BG : Int := 2
/-- `#define ST 3`: stopped. -/
def ST : Int := 3

/-- `struct job_t`. -/
structure job_t where
  pid : Int
  jid : Int
  state : Int
  cmdline : String
  deriving DecidableEq

/-- The globals `jobs`, `nextjid` and `verbose`. -/
structure Shell where
  jobs : List job_t
  nextjid : Int
  verbose : Bool
  deriving DecidableEq

/-- The value `clearjob` writes into a slot: pid 0, jid 0, state `UNDEF`, empty command line. -/
def emptySlot : job_t := { pid := 0, jid := 0, state := UNDEF, cmdline := "" }

/-- `clearjob`: clear the entries in a job struct. -/
def clearjob (_job : job_t) : job_t := emptySlot

/-- `initjobs`: clear every slot. -/
def initjobs (jobs : List job_t) : List job_t := jobs.map clearjob

/-- The shell's globals when `main` has run `initjobs(jobs)`: `MAXJOBS` cleared slots
and `nextjid = 1`. -/
def initShell (verbose : Bool) : Shell :=
  { jobs := initjobs (List.replicate MAXJOBS emptySlot), nextjid := 1, verbose := verbose }

/-- The loop shape shared by the table routines,
`for (i = 0; i < MAXJOBS; i++) if (p(jobs[i])) ... return`:
the first index whose slot satisfies `p`, with the slot found there. -/
def findSlot (p : job_t → Bool) : List job_t → Option (Nat × job_t)
  | [] => none
  | j :: js =>
    if p j then some (0, j)
    else match findSlot p js with
      | some (i, job) => some (i + 1, job)
      | none => none

/-- `maxjid`: returns largest allocated job ID (the scan starts from `max = 0` and
looks at every slot). -/
def maxjid (jobs : List job_t) : Int :=
  jobs.foldl (fun max j => if j.jid > max then j.jid else max) 0

/-- What a table routine returns: the C return value, the globals afterwards and
the text printed. -/
structure Ret where
  ret : Int
  st : Shell
  out : List String
  deriving DecidableEq

/-- `addjob`: add a job to the job list.  `strcpy(jobs[i].cmdline, cmdline)` stores the
command text, which `eval` passes from a buffer of `MAXLINE` characters. -/
def addjob (s : Shell) (pid : Int) (state : Int) (cmdline : String) : Ret :=
  if pid < 1 then { ret := 0, st := s, out := [] }
  else match findSlot (fun j => decide (j.pid = 0)) s.jobs with
    | some (i, _) =>
      let job : job_t := { pid := pid, jid := s.nextjid, state := state, cmdline := cmdline }
      let next := s.nextjid + 1
      let next := if next > (MAXJOBS : Int) then 1 else next
      { ret := 1
        st := { s with jobs := s.jobs.set i job, nextjid := next }
        out := if s.verbose then
            ["Added job [" ++ toString job.jid ++ "] " ++ toString job.pid ++ " "
              ++ job.cmdline ++ "\n"]
          else [] }
    | none => { ret := 0, st := s, out := ["Tried to create too many jobs\n"] }

/-- `deletejob`: delete a job whose PID=pid from the job list: `clearjob(&jobs[i])` on
the first slot with that pid, then `nextjid = maxjid(jobs)+1`. -/
def deletejob (s : Shell) (pid : Int) : Ret :=
  if pid < 1 then { ret := 0, st := s, out := [] }
  else match findSlot (fun j => decide (j.pid = pid)) s.jobs with
    | some (i, job) =>
      let jobs := s.jobs.set i (clearjob job)
      { ret := 1, st := { s with jobs := jobs, nextjid := maxjid jobs + 1 }, out := [] }
    | none => { ret := 0, st := s, out := [] }

/-- `fgpid`: return PID of current foreground job, 0 if no such job. -/
def fgpid (jobs : List job_t) : Int :=
  match findSlot (fun j => decide (j.state = FG)) jobs with
  | some (_, job) => job.pid
  | none => 0

/-- `getjobpid`: find a job (by PID) on the job list; `none` is `NULL`. -/
def getjobpid (jobs : List job_t) (pid : Int) : Option (Nat × job_t) :=
  if pid < 1 then none
  else findSlot (fun j => decide (j.pid = pid)) jobs

/-- `getjobjid`: find a job (by JID) on the job list; `none` is `NULL`. -/
def getjobjid (jobs : List job_t) (jid : Int) : Option (Nat × job_t) :=
  if jid < 1 then none
  else findSlot (fun j => decide (j.jid = jid)) jobs

/-- `pid2jid`: map process ID to job ID. -/
def pid2jid (jobs : List job_t) (pid : Int) : Int :=
  if pid < 1 then 0
  else match findSlot (fun j => decide (j.pid = pid)) jobs with
    | some (_, job) => job.jid
    | none => 0

/-! ## Effects of a routine -/

/-- The signals the shell sends, forwards or blocks by name. -/
inductive Signo
  | SIGINT
  | SIGTSTP
  | SIGCONT
  | SIGCHLD
  deriving DecidableEq

/-- What a routine does to the outside world: text printed and `kill(target, sig)` calls. -/
inductive Effect
  | print (text : String)
  | kill (target : Int) (sig : Signo)
  deriving DecidableEq

/-- The outcome of a routine of the main flow: the globals afterwards, its effects in
order, and `wait = some pid` when the routine ends in the call `waitfg(pid)`. -/
structure Run where
  st : Shell
  effects : List Effect
  wait : Option Int
  deriving DecidableEq

/-! ## The bg and fg built-ins -/

/-- C `isspace` in the "C" locale: space and the characters 9 to 13. -/
def isspace (c : Char) : Bool :=
  c.toNat = 32 || (9 ≤ c.toNat && c.toNat ≤ 13)

/-- The value `strtol` gives for a decimal number: the number itself, or `LONG_MAX`
resp. `LONG_MIN` (64 bits) when it lies outside the range of `long`. -/
def clampLong (v : Int) : Int :=
  if v > 9223372036854775807 then 9223372036854775807
  else if v < -9223372036854775808 then -9223372036854775808
  else v

/-- The conversion `(int) v` of a `long` to the 32-bit `int`: the low 32 bits, read as a
signed number. -/
def toInt32 (v : Int) : Int :=
  (v + 2147483648) % 4294967296 - 2147483648

/-- The call `sscanf(str, "%d", &id)`: skip white space, read an optional sign and then
decimal digits.  `some id` when a number was read (the call returns 1), `none` when the
call returns 0 or EOF.  The number is stored into the `int id`: as the C library of the
lab's platform does, it is converted like `strtol` and cut to 32 bits, so "4294967301"
stores 5 (the C standard leaves the stored value open when the number does not fit). -/
def sscanf_d (str : String) : Option Int :=
  let cs := str.toList.dropWhile isspace
  let neg : Bool := match cs with
    | c :: _ => c.toNat = 45
    | [] => false
  let rest : List Char := match cs with
    | c :: r => if c.toNat = 45 || c.toNat = 43 then r else cs
    | [] => []
  let digits := rest.takeWhile Char.isDigit
  if digits.isEmpty then none
  else
    let v : Int := digits.foldl (fun acc c => 10 * acc + ((c.toNat - 48 : Nat) : Int)) 0
    some (toInt32 (clampLong (if neg then -v else v)))

/-- `do_bgfg`: execute the builtin bg and fg commands.  `argv` is the argument vector up
to its terminating `NULL`; `builtin_cmd` calls this with `argv[0]` equal to "bg" or "fg". -/
def do_bgfg (s : Shell) (argv : List String) : Run :=
  match argv with
  | [] => { st := s, effects := [], wait := none }
  | name :: args =>
    match args with
    | [] =>
      { st := s, effects := [Effect.print (name ++ " command requires PID argument\n")],
        wait := none }
    | arg :: _ =>
      match sscanf_d arg with
      | some id =>
        match getjobpid s.jobs id with
        | none => { st := s, effects := [Effect.print "No such job\n"], wait := none }
        | some (i, job) =>
          if name = "bg" then
            { st := { s with jobs := s.jobs.set i { job with state := BG } }
              effects := [Effect.kill (-job.pid) Signo.SIGCONT]
              wait := none }
          else
            { st := { s with jobs := s.jobs.set i { job with state := FG } }
              effects := [Effect.kill (-job.pid) Signo.SIGCONT]
              wait := some job.pid }
      | none =>
        { st := s, effects := [Effect.print (name ++ " command requires PID argument\n")],
          wait := none }

/-- The condition of the loop in `waitfg`: `pid == fgpid(jobs)`. -/
def waitfg_cond (jobs : List job_t) (pid : Int) : Bool :=
  decide (pid = fgpid jobs)

/-! ## Launching an external command -/

/-- The parent's part of `eval` for a command that is not built in, after `fork()` has
returned `pid` to the parent: `addjob(jobs, pid, bg?BG:FG, buf)`, then either the line
`[jid] (pid) cmdline` or `waitfg(pid)`. -/
def eval_parent (s : Shell) (pid : Int) (bg : Bool) (buf : String) : Run :=
  let r := addjob s pid (if bg then BG else FG) buf
  if bg then
    { st := r.st
      effects := r.out.map Effect.print ++
        [Effect.print ("[" ++ toString (pid2jid r.st.jobs pid) ++ "] (" ++ toString pid
          ++ ") " ++ buf)]
      wait := none }
  else
    { st := r.st, effects := r.out.map Effect.print, wait := some pid }

/-! ## The reaper -/

/-- The status `waitpid(-1, &status, WNOHANG | WUNTRACED)` reports for a child:
`WIFEXITED`, `WIFSIGNALED` with `WTERMSIG`, or `WIFSTOPPED` with `WSTOPSIG`. -/
inductive Status
  | exited (code : Int)
  | signaled (termsig : Int)
  | stopped (stopsig : Int)
  deriving DecidableEq

/-- One turn of the loop of `sigchld_handler`, for a child `pid` with its status.
`none` is the dereference of the `NULL` that `getjobpid` returned. -/
def reap_one (s : Shell) (pid : Int) (status : Status) : Option (Shell × List String) :=
  match status with
  | Status.exited _ => some ((deletejob s pid).st, [])
  | Status.signaled termsig =>
    match getjobpid s.jobs pid with
    | none => none
    | some (_, job) =>
      some ((deletejob s pid).st,
        ["Job [" ++ toString job.jid ++ "] (" ++ toString job.pid
          ++ ") terminated by signal " ++ toString termsig ++ "\n"])
  | Status.stopped stopsig =>
    match getjobpid s.jobs pid with
    | none => none
    | some (i, job) =>
      some ({ s with jobs := s.jobs.set i { job with state := ST } },
        ["Job [" ++ toString job.jid ++ "] (" ++ toString job.pid
          ++ ") stopped by signal " ++ toString stopsig ++ "\n"])

/-- `sigchld_handler`: `pending` lists what the successive `waitpid` calls return; after
the list `waitpid` returns 0 or -1 and the loop ends, as it does at a pid that is not
positive. -/
def sigchld_handler (s : Shell) : List (Int × Status) → Option (Shell × List String)
  | [] => some (s, [])
  | (pid, status) :: pending =>
    if pid > 0 then
      match reap_one s pid status with
      | none => none
      | some (s1, out1) =>
        match sigchld_handler s1 pending with
        | none => none
        | some (s2, out2) => some (s2, out1 ++ out2)
    else some (s, [])

/-! ## Runs of the table routines and of the shell -/

/-- A call on the job table: `addjob(jobs, pid, state, cmdline)` or `deletejob(jobs, pid)`. -/
inductive TableOp
  | add (pid : Int) (state : Int) (cmdline : String)
  | del (pid : Int)

/-- The calls considered on a table: an `addjob` has `pid >= 1`, a pid that is not in
the table, and state `FG` or `BG`; any `deletejob`. -/
def TableOp.admissible (s : Shell) : TableOp → Bool
  | TableOp.add pid state _ =>
    decide (1 ≤ pid) && s.jobs.all (fun j => decide (j.pid ≠ pid))
      && (decide (state = FG) || decide (state = BG))
  | TableOp.del _ => true

/-- The globals after one call. -/
def TableOp.apply (s : Shell) : TableOp → Shell
  | TableOp.add pid state cmdline => (addjob s pid state cmdline).st
  | TableOp.del pid => (deletejob s pid).st

/-- The globals after a sequence of calls, `none` when one of them is not admissible. -/
def runOps (s : Shell) : List TableOp → Option Shell
  | [] => some s
  | op :: ops => if op.admissible s then runOps (op.apply s) ops else none

/-- The states of the table reachable from `initjobs` by admissible calls. -/
def TableReach (s : Shell) : Prop :=
  ∃ verbose ops, runOps (initShell verbose) ops = some s

/-- Any two distinct occupied slots (pid != 0) have different jid values. -/
def JidsDistinct (jobs : List job_t) : Prop :=
  ∀ (i k : Nat) (ji jk : job_t), jobs[i]? = some ji → jobs[k]? = some jk → i ≠ k →
    ji.pid ≠ 0 → jk.pid ≠ 0 → ji.jid ≠ jk.jid

/-- The shell between handler runs: its globals, and `waiting = some pid` while the main
flow is inside `waitfg(pid)`; with `waiting = none` the main loop accepts a command. -/
structure Sys where
  sh : Shell
  waiting : Option Int

/-- The steps of the shell, each run as a whole: the launch of an external command by
`eval` (for any pid `fork` returns), the built-ins bg and fg, a run of the reaper that
does not dereference `NULL`, and the return of `waitfg` once its condition is false. -/
inductive Step : Sys → Sys → Prop
  | launch (s : Shell) (pid : Int) (bg : Bool) (buf : String) :
      Step { sh := s, waiting := none }
        { sh := (eval_parent s pid bg buf).st, waiting := (eval_parent s pid bg buf).wait }
  | bgfg (s : Shell) (argv : List String) :
      Step { sh := s, waiting := none }
        { sh := (do_bgfg s argv).st, waiting := (do_bgfg s argv).wait }
  | reap (s : Shell) (w : Option Int) (pending : List (Int × Status)) (s1 : Shell)
      (out : List String) (h : sigchld_handler s pending = some (s1, out)) :
      Step { sh := s, waiting := w } { sh := s1, waiting := w }
  | waited (s : Shell) (pid : Int) (h : waitfg_cond s.jobs pid = false) :
      Step { sh := s, waiting := some pid } { sh := s, waiting := none }

/-- The states the shell reaches from its start. -/
def ShellReach (sys : Sys) : Prop :=
  ∃ verbose, Relation.ReflTransGen Step { sh := initShell verbose, waiting := none } sys

/-- At most one slot has state `FG`. -/
def AtMostOneFG (jobs : List job_t) : Prop :=
  ∀ (i k : Nat) (ji jk : job_t), jobs[i]? = some ji → jobs[k]? = some jk →
    ji.state = FG → jk.state = FG → i = k

/-- No slot has state `FG`. -/
def NoFG (jobs : List job_t) : Prop :=
  ∀ j ∈ jobs, j.state ≠ FG

/-! ## Properties and tables used in the statements -/

/-- The number of occupied slots (pid != 0). -/
def occupied (jobs : List job_t) : Nat :=
  jobs.countP (fun j => decide (j.pid ≠ 0))

/-- The occupied slots have pairwise-distinct pids. -/
def PidsDistinct (jobs : List job_t) : Prop :=
  ∀ (i k : Nat) (ji jk : job_t), jobs[i]? = some ji → jobs[k]? = some jk →
    ji.pid ≠ 0 → ji.pid = jk.pid → i = k

/-- The spec's "maximum jid over the occupied slots": the largest jid among the slots
with pid != 0, taken as 0 when no occupied slot has a positive jid. -/
def specMaxActiveJid (jobs : List job_t) : Int :=
  ((jobs.filter (fun j => decide (j.pid ≠ 0))).map (fun j => j.jid)).foldr max 0

/-- While the main flow waits for `p`, at most one slot is `FG` and every `FG` slot holds
`p`; when a command is accepted no slot is `FG`. -/
def FgInv (jobs : List job_t) : Option Int → Prop
  | none => NoFG jobs
  | some p => AtMostOneFG jobs ∧ ∀ j ∈ jobs, j.state = FG → j.pid = p

/-- Fifteen background launches with pids 1 to 15, the reaping of pid 2, and two more
launches with pids 16 and 17. -/
def collisionOps : List TableOp :=
  (List.range 15).map (fun n => TableOp.add ((n : Int) + 1) BG "sleep 9 &\n") ++
    [TableOp.del 2, TableOp.add 16 BG "sleep 9 &\n", TableOp.add 17 FG "sleep 9\n"]

/-- The globals after `collisionOps`. -/
def collisionState : Shell :=
  collisionOps.foldl TableOp.apply (initShell false)

/-- A table whose only job has pid 5 and jid 1 and is stopped. -/
def stoppedJobTable : Shell :=
  { jobs := { pid := 5, jid := 1, state := ST, cmdline := "sleep 5\n" }
      :: List.replicate 15 emptySlot
    nextjid := 2
    verbose := false }

/-- A table with two jobs: pid 5 in the foreground and pid 6 in the background. -/
def twoJobTable : Shell :=
  { jobs := { pid := 5, jid := 1, state := FG, cmdline := "sleep 5\n" }
      :: { pid := 6, jid := 2, state := BG, cmdline := "sleep 6 &\n" }
      :: List.replicate 14 emptySlot
    nextjid := 3
    verbose := false }

/-- A table with all sixteen slots occupied by background jobs with pids 1 to 16. -/
def fullTable : Shell :=
  { jobs := (List.range 16).map (fun n =>
      { pid := (n : Int) + 1, jid := (n : Int) + 1, state := BG, cmdline := "sleep 9 &\n" })
    nextjid := 1
    verbose := false }

/-- The shell after the foreground launch of pid 7 from its start. -/
def fgLaunchSys : Sys :=
  { sh := (eval_parent (initShell false) 7 false "sleep 5\n").st
    waiting := (eval_parent (initShell false) 7 false "sleep 5\n").wait }

/-! ## The keyboard-signal handlers, the jobs listing and the id range -/

/-- `#define MAXJID 1<<16`: max job ID. -/
def MAXJID : Nat := 1 <<< 16

/-- `sigint_handler`: read `fgpid(jobs)` and, when it is not 0, `kill(-pid, SIGINT)`. -/
def sigint_handler (s : Shell) : Shell × List Effect :=
  let pid := fgpid s.jobs
  (s, if pid ≠ 0 then [Effect.kill (-pid) Signo.SIGINT] else [])

/-- `sigtstp_handler`: read `fgpid(jobs)` and, when it is not 0, `kill(-pid, SIGTSTP)`. -/
def sigtstp_handler (s : Shell) : Shell × List Effect :=
  let pid := fgpid s.jobs
  (s, if pid ≠ 0 then [Effect.kill (-pid) Signo.SIGTSTP] else [])

/-- The `switch (jobs[i].state)` of `listjobs`: the text printed for the state of slot `i`. -/
def stateText (i : Nat) (j : job_t) : String :=
  if j.state = BG then "Running "
  else if j.state = FG then "Foreground "
  else if j.state = ST then "Stopped "
  else "listjobs: Internal error: job[" ++ toString i ++ "].state=" ++ toString j.state ++ " "

/-- The loop of `listjobs` from slot index `i` on: the strings of its `printf` calls. -/
def listjobs_from (i : Nat) : List job_t → List String
  | [] => []
  | j :: js =>
    (if j.pid ≠ 0 then
        ["[" ++ toString j.jid ++ "] (" ++ toString j.pid ++ ") ", stateText i j, j.cmdline]
      else []) ++ listjobs_from (i + 1) js

/-- `listjobs`: print the job list. -/
def listjobs (jobs : List job_t) : List String :=
  listjobs_from 0 jobs

/-- The spec's label of a state: "Running" for Background, "Foreground" for Foreground,
"Stopped" for Stopped. -/
def specLabel (state : Int) : String :=
  if state = BG then "Running " else if state = FG then "Foreground " else "Stopped "

/-- The spec's entry of a job in the listing: `[jid] (pid) `, the label, the command text. -/
def specEntry (j : job_t) : List String :=
  ["[" ++ toString j.jid ++ "] (" ++ toString j.pid ++ ") ", specLabel j.state, j.cmdline]

/-- The spec's listing: the entries of the slots with pid != 0, in slot order. -/
def specListing (jobs : List job_t) : List String :=
  (jobs.filter (fun j => decide (j.pid ≠ 0))).flatMap specEntry

/-- The globals after background launches with pids 1 to `n` from the start of the shell. -/
def afterLaunches (n : Nat) : Shell :=
  ((List.range n).map (fun k => TableOp.add ((k : Int) + 1) BG "sleep 9 &\n")).foldl
    TableOp.apply (initShell false)

/-! ## Well-formed slots -/

/-- A slot is empty (pid 0, jid 0, state `UNDEF`) or well-formed (pid > 0, jid > 0 and
state `FG`, `BG` or `ST`). -/
def SlotOk (j : job_t) : Prop :=
  (j.pid = 0 ∧ j.jid = 0 ∧ j.state = UNDEF) ∨
    (0 < j.pid ∧ 0 < j.jid ∧ (j.state = FG ∨ j.state = BG ∨ j.state = ST))

/-- The states reached from `initjobs` by `addjob` (pid >= 1, state `FG` or `BG`),
`deletejob`, the reaper's stop transition and the bg and fg built-ins. -/
inductive WfReach : Shell → Prop
  | init (verbose : Bool) : WfReach (initShell verbose)
  | add (s : Shell) (pid state : Int) (cmdline : String) (h : WfReach s) (hpid : 1 ≤ pid)
      (hstate : state = FG ∨ state = BG) : WfReach (addjob s pid state cmdline).st
  | del (s : Shell) (pid : Int) (h : WfReach s) : WfReach (deletejob s pid).st
  | stop (s : Shell) (pid stopsig : Int) (s1 : Shell) (out : List String) (h : WfReach s)
      (hr : reap_one s pid (Status.stopped stopsig) = some (s1, out)) : WfReach s1
  | bgfg (s : Shell) (argv : List String) (h : WfReach s) : WfReach (do_bgfg s argv).st

/-! ## Children and their registration -/

/-- The shell with its children: `registered` lists the pids of the children whose
`addjob` in `eval` returned 1 and whose termination has not been reaped. -/
structure World where
  sh : Shell
  registered : List Int

/-- Launching and reaping: `eval` launches a child with the pid `fork` returned, and the
reaper handles one status of a child without dereferencing `NULL`; an exit or a death by
signal ends the child, a stop does not. -/
inductive WorldStep : World → World → Prop
  | launch (w : World) (pid : Int) (bg : Bool) (buf : String) :
      WorldStep w
        { sh := (eval_parent w.sh pid bg buf).st
          registered :=
            if (addjob w.sh pid (if bg then BG else FG) buf).ret = 1 then pid :: w.registered
            else w.registered }
  | reap (w : World) (pid : Int) (status : Status) (s1 : Shell) (out : List String)
      (hpid : 0 < pid) (h : reap_one w.sh pid status = some (s1, out)) :
      WorldStep w
        { sh := s1
          registered :=
            match status with
            | Status.stopped _ => w.registered
            | _ => w.registered.filter (fun p => decide (p ≠ pid)) }

/-- The worlds reached from the start of the shell, with no child. -/
def WorldReach (w : World) : Prop :=
  ∃ verbose, Relation.ReflTransGen WorldStep { sh := initShell verbose, registered := [] } w

/-- The globals after `eval` has launched background children with pids 1 to `n`. -/
def afterEvals (n : Nat) : Shell :=
  (List.range n).foldl (fun s k => (eval_parent s ((k : Int) + 1) true "sleep 9 &\n").st)
    (initShell false)

/-- Every registered child is positive and sits in the table. -/
def RegInv (w : World) : Prop :=
  ∀ p ∈ w.registered, 1 ≤ p ∧ ∃ j ∈ w.sh.jobs, j.pid = p

/-! ## The blocked-signal mask -/

/-- A `sigset_t`, as far as the signals the program names are concerned. -/
def sigset_t : Type := Signo → Bool

/-- `sigemptyset`. -/
def sigemptyset : sigset_t := fun _ => false

/-- `sigfillset`. -/
def sigfillset : sigset_t := fun _ => true

/-- `sigaddset(&set, sig)`. -/
def sigaddset (set : sigset_t) (sig : Signo) : sigset_t :=
  fun x => decide (x = sig) || set x

/-- The mask after `sigprocmask(SIG_BLOCK, &set, _)`: the union of the mask and `set`. -/
def sig_block (mask set : sigset_t) : sigset_t :=
  fun x => mask x || set x

/-- The mask after `sigprocmask(SIG_SETMASK, &set, NULL)`. -/
def sig_setmask (_mask set : sigset_t) : sigset_t := set

/-- The steps of a routine that matter for the mask discipline: the creation of the
child and the writes to the job table. -/
inductive Act
  | fork
  | addjob
  | deletejob
  | setState (state : Int)
  deriving DecidableEq

/-- The writes to the job table. -/
def Act.mutates : Act → Bool
  | Act.fork => false
  | _ => true

/-- A routine run with the mask as state: the globals and the mask on return, and each
step with the mask in force when it ran. -/
structure Traced where
  st : Shell
  mask : sigset_t
  log : List (Act × sigset_t)

/-- The parent's part of `eval` for a command that is not built in, entered with mask
`m`, for the pid `fork` returns: block `SIGCHLD` (saving `prev`), `fork`, block every
signal, `addjob`, restore `prev`. -/
def eval_traced (s : Shell) (m : sigset_t) (pid : Int) (bg : Bool) (buf : String) : Traced :=
  let mask_one := sigaddset sigemptyset Signo.SIGCHLD
  let mask_all := sigfillset
  let prev := m
  let m1 := sig_block m mask_one
  let m2 := sig_block m1 mask_all
  let r := addjob s pid (if bg then BG else FG) buf
  let m3 := sig_setmask m2 prev
  { st := r.st, mask := m3, log := [(Act.fork, m1), (Act.addjob, m2)] }

/-- One turn of the loop of `sigchld_handler` entered with mask `m`: block every signal
(saving `prev`), `deletejob` or the write `job->state = ST`, restore `prev`. -/
def reap_traced (s : Shell) (m : sigset_t) (pid : Int) (status : Status) : Option Traced :=
  let mask_all := sigfillset
  let prev := m
  let m1 := sig_block m mask_all
  match status with
  | Status.exited _ =>
    some { st := (deletejob s pid).st, mask := sig_setmask m1 prev, log := [(Act.deletejob, m1)] }
  | Status.signaled _ =>
    match getjobpid s.jobs pid with
    | none => none
    | some _ =>
      some { st := (deletejob s pid).st, mask := sig_setmask m1 prev,
             log := [(Act.deletejob, m1)] }
  | Status.stopped _ =>
    match getjobpid s.jobs pid with
    | none => none
    | some (i, job) =>
      some { st := { s with jobs := s.jobs.set i { job with state := ST } },
             mask := sig_setmask m1 prev, log := [(Act.setState ST, m1)] }

/-- `do_bgfg` entered with mask `m`: the routine never calls `sigprocmask`, so the write
`job->state = BG` or `job->state = FG` runs under `m`. -/
def do_bgfg_traced (s : Shell) (m : sigset_t) (argv : List String) : Traced :=
  match argv with
  | [] => { st := s, mask := m, log := [] }
  | name :: args =>
    match args with
    | [] => { st := s, mask := m, log := [] }
    | arg :: _ =>
      match sscanf_d arg with
      | some id =>
        match getjobpid s.jobs id with
        | none => { st := s, mask := m, log := [] }
        | some (i, job) =>
          if name = "bg" then
            { st := { s with jobs := s.jobs.set i { job with state := BG } }
              mask := m, log := [(Act.setState BG, m)] }
          else
            { st := { s with jobs := s.jobs.set i { job with state := FG } }
              mask := m, log := [(Act.setState FG, m)] }
      | none => { st := s, mask := m, log := [] }

/-- The world with one background child, pid 7, launched from the start of the shell. -/
def oneChildWorld : World :=
  { sh := (eval_parent (initShell false) 7 true "sleep 5 &\n").st
    registered :=
      if (addjob (initShell false) 7 (if true then BG else FG) "sleep 5 &\n").ret = 1 then
        7 :: []
      else [] }

/-! ## parseline -/

/-- `strchr(buf, c)` for the character with code `code`: the text before its first
occurrence and the text after it; `none` is `NULL`. -/
def strchr_split (code : Nat) : List Char → Option (List Char × List Char)
  | [] => none
  | x :: xs =>
    if x.toNat = code then some ([], xs)
    else match strchr_split code xs with
      | some (arg, rest) => some (x :: arg, rest)
      | none => none

/-- `while (*buf && (*buf == ' ')) buf++`: ignore spaces. -/
def skipSpaces : List Char → List Char
  | [] => []
  | x :: xs => if x.toNat = 32 then skipSpaces xs else x :: xs

/-- The search for the delimiter of the argument at `buf`: after a single quote (code 39)
the next single quote, otherwise the next space.  `some (arg, rest)` is the argument and
the text after its delimiter. -/
def nextDelim (buf : List Char) : Option (List Char × List Char) :=
  match buf with
  | [] => none
  | x :: xs => if x.toNat = 39 then strchr_split 39 xs else strchr_split 32 (x :: xs)

/-- The loop `while (delim)` of `parseline`: the arguments stored in `argv`.  Each turn
consumes its delimiter, so `fuel` above the length of `buf` is enough. -/
def buildArgv : Nat → List Char → List (List Char)
  | 0, _ => []
  | fuel + 1, buf =>
    match nextDelim buf with
    | none => []
    | some (arg, rest) => arg :: buildArgv fuel (skipSpaces rest)

/-- The test `*argv[argc-1] == '&'`: the first character of the argument has code 38. -/
def firstIsAmp (arg : List Char) : Bool :=
  match arg with
  | [] => false
  | c :: _ => decide (c.toNat = 38)

/-- `#define MAXLINE 1024`: max line size. -/
def MAXLINE : Nat := 1024

/-- `#define MAXARGS 128`: max args on a command line. -/
def MAXARGS : Nat := 128

/-- `parseline`: parse the command line and build the argv array.  The last character
of the line is replaced by a space; the result is the value returned (true for a
background job or a blank line) and `argv` up to its `NULL`.  `none` is a write outside
a buffer: an empty line (the write to `buf[strlen(buf)-1]`), a line of `MAXLINE`
characters or more (`strcpy` into `array[MAXLINE]`), or `MAXARGS` arguments or more
(the writes `argv[argc++] = buf` and `argv[argc] = NULL` into the caller's
`char *argv[MAXARGS]`). -/
def parseline (cmdline : String) : Option (Bool × List String) :=
  let line := cmdline.toList
  if line.isEmpty || decide (MAXLINE ≤ line.length) then none
  else
    let buf := skipSpaces (line.dropLast ++ [Char.ofNat 32])
    let argv := buildArgv (buf.length + 1) buf
    if MAXARGS ≤ argv.length then none
    else
      match argv.getLast? with
      | none => some (true, [])
      | some last =>
        if firstIsAmp last then some (true, argv.dropLast.map String.mk)
        else some (false, argv.map String.mk)

/-- The space-separated arguments of a line: its maximal runs of characters other than
the space. -/
def specWords (body : List Char) : List (List Char) :=
  (body.splitOnP (fun c => decide (c.toNat = 32))).filter (fun w => !w.isEmpty)

/-! ## The tables the shell can hold -/

/-- The globals the shell can hold: reached from `initjobs` by `addjob` for a child just
created (pid >= 1, a pid no slot holds, state `FG` or `BG`), by `deletejob`, by the
reaper's stop transition and by the bg and fg built-ins. -/
inductive Held : Shell → Prop
  | init (verbose : Bool) : Held (initShell verbose)
  | add (s : Shell) (pid state : Int) (cmdline : String) (h : Held s) (hpid : 1 ≤ pid)
      (hnew : ∀ j ∈ s.jobs, j.pid ≠ pid) (hstate : state = FG ∨ state = BG) :
      Held (addjob s pid state cmdline).st
  | del (s : Shell) (pid : Int) (h : Held s) : Held (deletejob s pid).st
  | stop (s : Shell) (pid stopsig : Int) (s1 : Shell) (out : List String) (h : Held s)
      (hr : reap_one s pid (Status.stopped stopsig) = some (s1, out)) : Held s1
  | bgfg (s : Shell) (argv : List String) (h : Held s) : Held (do_bgfg s argv).st

/-- The globals after the foreground launch of pid 5 from the start of the shell. -/
def oneJobShell : Shell :=
  (addjob (initShell false) 5 FG "sleep 5\n").st

/-- Every free slot is the empty slot, and the occupied slots have distinct pids. -/
def HeldInv (jobs : List job_t) : Prop :=
  (∀ j ∈ jobs, j.pid = 0 → j = emptySlot) ∧ PidsDistinct jobs

/-! ## Lemmas on the slot scan and on writes to a slot -/

theorem findSlot_none_iff (p : job_t → Bool) (jobs : List job_t) :
    findSlot p jobs = none ↔ ∀ j ∈ jobs, p j = false := by
  induction jobs with
  | nil => simp [findSlot]
  | cons a l ih =>
    by_cases ha : p a = true
    · simp [findSlot, ha]
    · simp only [Bool.not_eq_true] at ha
      simp only [findSlot, ha, List.mem_cons, forall_eq_or_imp, true_and, ← ih]
      cases h : findSlot p l with
      | none => simp
      | some r => simp

theorem findSlot_some_iff (p : job_t → Bool) (jobs : List job_t) (i : Nat) (j : job_t) :
    findSlot p jobs = some (i, j) ↔
      jobs[i]? = some j ∧ p j = true ∧
        ∀ k, k < i → ∀ j', jobs[k]? = some j' → p j' = false := by
  induction jobs generalizing i with
  | nil => simp [findSlot]
  | cons a l ih =>
    by_cases ha : p a = true
    · cases i with
      | zero =>
        simp only [findSlot, ha, if_true, Option.some.injEq, Prod.mk.injEq, true_and,
          List.getElem?_cons_zero]
        constructor
        · intro h
          subst h
          exact ⟨rfl, ha, fun k hk => absurd hk (Nat.not_lt_zero k)⟩
        · intro h
          exact h.1
      | succ n =>
        simp only [findSlot, ha, if_true, Option.some.injEq, Prod.mk.injEq]
        constructor
        · intro h
          exact absurd h.1 (by omega)
        · intro h
          have := h.2.2 0 (Nat.succ_pos n) a (by simp)
          rw [ha] at this
          exact absurd this (by simp)
    · simp only [Bool.not_eq_true] at ha
      cases i with
      | zero =>
        simp only [findSlot, ha, List.getElem?_cons_zero, Option.some.injEq]
        constructor
        · intro h
          cases hf : findSlot p l with
          | none => rw [hf] at h; simp at h
          | some r => rw [hf] at h; simp at h
        · intro h
          rw [h.1] at ha
          rw [ha] at h
          exact absurd h.2.1 (by simp)
      | succ n =>
        simp only [findSlot, ha, List.getElem?_cons_succ]
        have ih' := ih n
        constructor
        · intro h
          cases hf : findSlot p l with
          | none => rw [hf] at h; simp at h
          | some r =>
            obtain ⟨i', j''⟩ := r
            rw [hf] at h
            simp only [Bool.false_eq_true, if_false, Option.some.injEq, Prod.mk.injEq,
              Nat.add_right_cancel_iff] at h
            obtain ⟨h1, h2⟩ := h
            subst h1; subst h2
            obtain ⟨g1, g2, g3⟩ := ih'.mp hf
            refine ⟨g1, g2, ?_⟩
            intro k hk j' hj'
            cases k with
            | zero =>
              simp only [List.getElem?_cons_zero, Option.some.injEq] at hj'
              rw [← hj']; exact ha
            | succ m =>
              simp only [List.getElem?_cons_succ] at hj'
              exact g3 m (by omega) j' hj'
        · intro h
          obtain ⟨g1, g2, g3⟩ := h
          have hf : findSlot p l = some (n, j) := by
            refine ih'.mpr ⟨g1, g2, ?_⟩
            intro k hk j' hj'
            exact g3 (k + 1) (by omega) j' (by simpa using hj')
          rw [hf]
          simp

theorem getElem?_set_cases {l : List job_t} {i k : Nat} {x y : job_t}
    (h : (l.set i x)[k]? = some y) : (k = i ∧ y = x) ∨ (k ≠ i ∧ l[k]? = some y) := by
  rw [List.getElem?_set] at h
  by_cases hik : i = k
  · left
    rw [if_pos hik] at h
    split at h
    · exact ⟨hik.symm, by injection h with h; exact h.symm⟩
    · exact absurd h (by simp)
  · right
    rw [if_neg hik] at h
    exact ⟨fun e => hik e.symm, h⟩

theorem findSlot_lt {p : job_t → Bool} {jobs : List job_t} {i : Nat} {j : job_t}
    (h : findSlot p jobs = some (i, j)) : i < jobs.length := by
  have h1 := ((findSlot_some_iff p jobs i j).mp h).1
  exact (List.getElem?_eq_some_iff.mp h1).1

theorem findSlot_isSome_of_mem {p : job_t → Bool} {jobs : List job_t} {j : job_t}
    (hj : j ∈ jobs) (hp : p j = true) : ∃ i job, findSlot p jobs = some (i, job) := by
  cases h : findSlot p jobs with
  | none =>
    have := (findSlot_none_iff p jobs).mp h j hj
    rw [hp] at this
    exact absurd this (by simp)
  | some r => exact ⟨r.1, r.2, rfl⟩

/-- The jobs after `addjob`: the table as it was, or one slot overwritten with the new job. -/
theorem addjob_jobs (s : Shell) (pid state : Int) (cmdline : String) :
    (addjob s pid state cmdline).st.jobs = s.jobs ∨
      ∃ i, (addjob s pid state cmdline).st.jobs =
        s.jobs.set i { pid := pid, jid := s.nextjid, state := state, cmdline := cmdline } := by
  unfold addjob
  split
  · left; rfl
  · split
    · right; exact ⟨_, rfl⟩
    · left; rfl

/-- The jobs after `deletejob`: the table as it was, or one slot cleared. -/
theorem deletejob_jobs (s : Shell) (pid : Int) :
    (deletejob s pid).st.jobs = s.jobs ∨
      ∃ i, (deletejob s pid).st.jobs = s.jobs.set i emptySlot := by
  unfold deletejob
  split
  · left; rfl
  · split
    · right; exact ⟨_, rfl⟩
    · left; rfl

theorem getjobpid_of_mem {jobs : List job_t} {n : Int} (hn : 1 ≤ n)
    (h : ∃ j ∈ jobs, j.pid = n) :
    ∃ (i : Nat) (job : job_t), getjobpid jobs n = some (i, job) ∧ jobs[i]? = some job ∧ job.pid = n ∧
      ∀ (k : Nat), k < i → ∀ (j' : job_t), jobs[k]? = some j' → j'.pid ≠ n := by
  obtain ⟨j, hj, hp⟩ := h
  obtain ⟨i, job, hfs⟩ :=
    findSlot_isSome_of_mem (p := fun j => decide (j.pid = n)) hj (by simpa using hp)
  obtain ⟨h1, h2, h3⟩ := (findSlot_some_iff _ _ _ _).mp hfs
  refine ⟨i, job, ?_, h1, by simpa using h2, ?_⟩
  · unfold getjobpid
    rw [if_neg (by omega)]
    exact hfs
  · intro k hk j' hj'
    simpa using h3 k hk j' hj'

theorem getjobpid_eq_of_first {jobs : List job_t} {pid : Int} {i : Nat} {job : job_t}
    (hpid : 1 ≤ pid) (hslot : jobs[i]? = some job) (hp : job.pid = pid)
    (hfirst : ∀ (k : Nat), k < i → ∀ (j' : job_t), jobs[k]? = some j' → j'.pid ≠ pid) :
    getjobpid jobs pid = some (i, job) := by
  unfold getjobpid
  rw [if_neg (by omega)]
  refine (findSlot_some_iff _ _ _ _).mpr ⟨hslot, by simpa using hp, ?_⟩
  intro k hk j' hj'
  simpa using hfirst k hk j' hj'

theorem findSlot_ne_emptySlot {p : job_t → Bool} {jobs : List job_t} {i : Nat} {job : job_t}
    (h : findSlot p jobs = some (i, job)) (hp : p emptySlot = false) : job ≠ emptySlot := by
  intro he
  have h2 := ((findSlot_some_iff p jobs i job).mp h).2.1
  rw [he, hp] at h2
  exact absurd h2 (by simp)

theorem occupied_le_length (jobs : List job_t) : occupied jobs ≤ jobs.length :=
  List.countP_le_length _

theorem addjob_length (s : Shell) (pid state : Int) (cmdline : String) :
    (addjob s pid state cmdline).st.jobs.length = s.jobs.length := by
  rcases addjob_jobs s pid state cmdline with e | ⟨i, e⟩
  · rw [e]
  · rw [e, List.length_set]

theorem maxjid_foldl (jobs : List job_t) (a : Int) (ha : 0 ≤ a) :
    jobs.foldl (fun max j => if j.jid > max then j.jid else max) a =
      max a ((jobs.map (fun j => j.jid)).foldr max 0) := by
  induction jobs generalizing a with
  | nil => simp [ha]
  | cons x l ih =>
    simp only [List.foldl_cons, List.map_cons, List.foldr_cons]
    by_cases hx : x.jid > a
    · rw [if_pos hx, ih x.jid (by omega)]
      omega
    · rw [if_neg hx, ih a ha]
      omega

theorem foldr_max_nonneg (l : List Int) : 0 ≤ l.foldr max 0 := by
  induction l with
  | nil => simp
  | cons x l ih => simp only [List.foldr_cons]; omega

theorem maxjid_eq_spec (jobs : List job_t) (hfree : ∀ j ∈ jobs, j.pid = 0 → j.jid ≤ 0) :
    maxjid jobs = specMaxActiveJid jobs := by
  unfold maxjid
  rw [maxjid_foldl jobs 0 (le_refl 0)]
  have h0 := foldr_max_nonneg (jobs.map (fun j => j.jid))
  rw [max_eq_right h0]
  unfold specMaxActiveJid
  induction jobs with
  | nil => rfl
  | cons x l ih =>
    have hl : ∀ j ∈ l, j.pid = 0 → j.jid ≤ 0 := fun j hj => hfree j (List.mem_cons_of_mem _ hj)
    have ih' := ih hl (foldr_max_nonneg _)
    by_cases hx : x.pid = 0
    · have hjid := hfree x (List.mem_cons_self _ _) hx
      have hnn := foldr_max_nonneg (l.map (fun j => j.jid))
      simp only [List.map_cons, List.foldr_cons, List.filter_cons, hx, ne_eq, not_true_eq_false,
        decide_False, Bool.false_eq_true, if_false]
      rw [← ih']
      omega
    · simp only [List.map_cons, List.foldr_cons, List.filter_cons, hx, ne_eq, not_false_eq_true,
        decide_True, if_true]
      rw [← ih']

theorem mem_set_self_free {l : List job_t} {i : Nat} {j : job_t}
    (hfree : ∀ j ∈ l, j.pid = 0 → j.jid ≤ 0) (hj : j ∈ l.set i emptySlot) (hp : j.pid = 0) :
    j.jid ≤ 0 := by
  rcases List.mem_or_eq_of_mem_set hj with hm | he
  · exact hfree j hm hp
  · rw [he]; decide

theorem twoJobTable_slots (n : Nat) (j : job_t) (h : twoJobTable.jobs[n]? = some j) :
    (n = 0 ∧ j = { pid := 5, jid := 1, state := FG, cmdline := "sleep 5\n" }) ∨
      (n = 1 ∧ j = { pid := 6, jid := 2, state := BG, cmdline := "sleep 6 &\n" }) ∨
      j = emptySlot := by
  match n, h with
  | 0, h =>
    simp only [twoJobTable, List.getElem?_cons_zero, Option.some.injEq] at h
    left; exact ⟨rfl, h.symm⟩
  | 1, h =>
    simp only [twoJobTable, List.getElem?_cons_succ, List.getElem?_cons_zero,
      Option.some.injEq] at h
    right; left; exact ⟨rfl, h.symm⟩
  | n + 2, h =>
    simp only [twoJobTable, List.getElem?_cons_succ] at h
    right; right
    exact List.eq_of_mem_replicate (List.mem_iff_getElem?.mpr ⟨n, h⟩)

theorem PidsDistinct_twoJobTable : PidsDistinct twoJobTable.jobs := by
  intro i k ji jk hi hk hne he
  rcases twoJobTable_slots i ji hi with ⟨a1, a2⟩ | ⟨a1, a2⟩ | a2 <;>
    rcases twoJobTable_slots k jk hk with ⟨b1, b2⟩ | ⟨b1, b2⟩ | b2 <;>
    subst a2 <;> subst b2 <;> simp only [emptySlot] at hne he <;> omega

theorem AtMostOneFG_twoJobTable : AtMostOneFG twoJobTable.jobs := by
  intro i k ji jk hi hk hfi hfk
  rcases twoJobTable_slots i ji hi with ⟨a1, a2⟩ | ⟨a1, a2⟩ | a2 <;>
    rcases twoJobTable_slots k jk hk with ⟨b1, b2⟩ | ⟨b1, b2⟩ | b2 <;>
    subst a2 <;> subst b2 <;> simp only [emptySlot, FG, BG, UNDEF] at hfi hfk <;> omega

/-! ## The foreground invariant -/

theorem FG_ne_UNDEF : emptySlot.state ≠ FG := by decide

theorem NoFG_set {l : List job_t} (i : Nat) {x : job_t} (h : NoFG l) (hx : x.state ≠ FG) :
    NoFG (l.set i x) := by
  intro j hj
  rcases List.mem_or_eq_of_mem_set hj with hm | he
  · exact h j hm
  · rw [he]; exact hx

theorem AtMostOneFG_of_NoFG {l : List job_t} (h : NoFG l) : AtMostOneFG l := by
  intro i k ji jk hi _ hfi _
  exact absurd hfi (h ji (List.mem_iff_getElem?.mpr ⟨i, hi⟩))

theorem AtMostOneFG_set {l : List job_t} (i : Nat) {x : job_t} (h : AtMostOneFG l)
    (hx : x.state ≠ FG) : AtMostOneFG (l.set i x) := by
  intro a b ja jb ha hb hfa hfb
  rcases getElem?_set_cases ha with ⟨_, e⟩ | ⟨_, ha'⟩
  · rw [e] at hfa; exact absurd hfa hx
  · rcases getElem?_set_cases hb with ⟨_, e⟩ | ⟨_, hb'⟩
    · rw [e] at hfb; exact absurd hfb hx
    · exact h a b ja jb ha' hb' hfa hfb

theorem AtMostOneFG_set_of_NoFG {l : List job_t} (i : Nat) (x : job_t) (h : NoFG l) :
    AtMostOneFG (l.set i x) := by
  intro a b ja jb ha hb hfa hfb
  rcases getElem?_set_cases ha with ⟨ea, _⟩ | ⟨_, ha'⟩
  · rcases getElem?_set_cases hb with ⟨eb, _⟩ | ⟨_, hb'⟩
    · rw [ea, eb]
    · exact absurd hfb (h jb (List.mem_iff_getElem?.mpr ⟨b, hb'⟩))
  · exact absurd hfa (h ja (List.mem_iff_getElem?.mpr ⟨a, ha'⟩))

theorem FgInv_set {l : List job_t} {w : Option Int} (i : Nat) {x : job_t}
    (h : FgInv l w) (hx : x.state ≠ FG) : FgInv (l.set i x) w := by
  cases w with
  | none => exact NoFG_set i h hx
  | some p =>
    refine ⟨AtMostOneFG_set i h.1 hx, ?_⟩
    intro j hj hf
    rcases List.mem_or_eq_of_mem_set hj with hm | he
    · exact h.2 j hm hf
    · rw [he] at hf; exact absurd hf hx

theorem FgInv_deletejob {s : Shell} {w : Option Int} (pid : Int) (h : FgInv s.jobs w) :
    FgInv (deletejob s pid).st.jobs w := by
  rcases deletejob_jobs s pid with e | ⟨i, e⟩
  · rw [e]; exact h
  · rw [e]; exact FgInv_set i h FG_ne_UNDEF

theorem FgInv_reap_one {s s1 : Shell} {w : Option Int} {pid : Int} {status : Status}
    {out : List String} (h : FgInv s.jobs w) (hr : reap_one s pid status = some (s1, out)) :
    FgInv s1.jobs w := by
  unfold reap_one at hr
  cases status with
  | exited code =>
    simp only [Option.some.injEq, Prod.mk.injEq] at hr
    rw [← hr.1]; exact FgInv_deletejob pid h
  | signaled termsig =>
    simp only at hr
    split at hr
    · exact absurd hr (by simp)
    · simp only [Option.some.injEq, Prod.mk.injEq] at hr
      rw [← hr.1]; exact FgInv_deletejob pid h
  | stopped stopsig =>
    simp only at hr
    split at hr
    · exact absurd hr (by simp)
    · simp only [Option.some.injEq, Prod.mk.injEq] at hr
      rw [← hr.1]
      exact FgInv_set _ h (by simp only [ST, FG]; decide)

theorem FgInv_sigchld_handler {w : Option Int} (pending : List (Int × Status)) :
    ∀ {s s1 : Shell} {out : List String}, FgInv s.jobs w →
      sigchld_handler s pending = some (s1, out) → FgInv s1.jobs w := by
  induction pending with
  | nil =>
    intro s s1 out h hr
    simp only [sigchld_handler, Option.some.injEq, Prod.mk.injEq] at hr
    rw [← hr.1]; exact h
  | cons e rest ih =>
    intro s s1 out h hr
    obtain ⟨pid, status⟩ := e
    simp only [sigchld_handler] at hr
    split at hr
    · cases h1 : reap_one s pid status with
      | none => rw [h1] at hr; exact absurd hr (by simp)
      | some r1 =>
        obtain ⟨s2, out2⟩ := r1
        rw [h1] at hr
        simp only at hr
        cases h2 : sigchld_handler s2 rest with
        | none => rw [h2] at hr; exact absurd hr (by simp)
        | some r2 =>
          obtain ⟨s3, out3⟩ := r2
          rw [h2] at hr
          simp only [Option.some.injEq, Prod.mk.injEq] at hr
          rw [← hr.1]
          exact ih (FgInv_reap_one h h1) h2
    · simp only [Option.some.injEq, Prod.mk.injEq] at hr
      rw [← hr.1]; exact h

theorem FgInv_eval_parent (s : Shell) (pid : Int) (bg : Bool) (buf : String)
    (h : NoFG s.jobs) :
    FgInv (eval_parent s pid bg buf).st.jobs (eval_parent s pid bg buf).wait := by
  cases bg with
  | true =>
    simp only [eval_parent, if_true]
    rcases addjob_jobs s pid BG buf with e | ⟨i, e⟩
    · rw [e]; exact h
    · rw [e]; exact NoFG_set i h (by simp only [BG, FG]; decide)
  | false =>
    simp only [eval_parent, Bool.false_eq_true, if_false]
    rcases addjob_jobs s pid FG buf with e | ⟨i, e⟩
    · rw [e]
      exact ⟨AtMostOneFG_of_NoFG h, fun j hj hf => absurd hf (h j hj)⟩
    · rw [e]
      refine ⟨AtMostOneFG_set_of_NoFG i _ h, ?_⟩
      intro j hj hf
      rcases List.mem_or_eq_of_mem_set hj with hm | he
      · exact absurd hf (h j hm)
      · rw [he]

theorem FgInv_do_bgfg (s : Shell) (argv : List String) (h : NoFG s.jobs) :
    FgInv (do_bgfg s argv).st.jobs (do_bgfg s argv).wait := by
  unfold do_bgfg
  split
  · exact h
  · split
    · exact h
    · split
      · split
        · exact h
        · split
          · exact NoFG_set _ h (by simp only [BG, FG]; decide)
          · refine ⟨AtMostOneFG_set_of_NoFG _ _ h, ?_⟩
            intro j hj hf
            rcases List.mem_or_eq_of_mem_set hj with hm | he
            · exact absurd hf (h j hm)
            · rw [he]
      · exact h

theorem fgpid_eq_of_allFG {jobs : List job_t} {p : Int} {j : job_t} (hj : j ∈ jobs)
    (hf : j.state = FG) (hall : ∀ j ∈ jobs, j.state = FG → j.pid = p) : fgpid jobs = p := by
  obtain ⟨i, job, hfs⟩ :=
    findSlot_isSome_of_mem (p := fun j => decide (j.state = FG)) hj (by simpa using hf)
  obtain ⟨h1, h2, _⟩ := (findSlot_some_iff _ _ _ _).mp hfs
  unfold fgpid
  rw [hfs]
  exact hall job (List.mem_iff_getElem?.mpr ⟨i, h1⟩) (by simpa using h2)

theorem FgInv_step {a b : Sys} (hstep : Step a b) (h : FgInv a.sh.jobs a.waiting) :
    FgInv b.sh.jobs b.waiting := by
  cases hstep with
  | launch s pid bg buf => exact FgInv_eval_parent s pid bg buf h
  | bgfg s argv => exact FgInv_do_bgfg s argv h
  | reap s w pending s1 out hr => exact FgInv_sigchld_handler pending h hr
  | waited s pid hc =>
    intro j hj hf
    have := fgpid_eq_of_allFG hj hf h.2
    simp only [waitfg_cond, decide_eq_false_iff_not] at hc
    exact hc this.symm

theorem NoFG_initShell (v : Bool) : NoFG (initShell v).jobs := by
  intro j hj
  simp only [initShell, initjobs, MAXJOBS, List.map_replicate, clearjob] at hj
  rw [List.eq_of_mem_replicate hj]
  exact FG_ne_UNDEF

theorem FgInv_reach {sys : Sys} (h : ShellReach sys) : FgInv sys.sh.jobs sys.waiting := by
  obtain ⟨v, hr⟩ := h
  induction hr with
  | refl => exact NoFG_initShell v
  | tail _ hstep ih => exact FgInv_step hstep ih

/-! ## The claims -/

/-- Claim C1, evaluated on the code: after fifteen launches (pids 1 to 15), the reaping of
pid 2 and two more launches (pids 16 and 17), every call admissible, the occupied slots 0
and 15 hold pids 1 and 17 with the same jid 1, because `addjob` resets `nextjid` to 1 once
it exceeds `MAXJOBS`.  Job ids are not pairwise distinct in this reachable state. -/
theorem jid_collision_after_wraparound :
    runOps (initShell false) collisionOps = some collisionState ∧
      TableReach collisionState ∧
      (collisionState.jobs[0]?).map (fun j => (j.pid, j.jid)) = some (1, 1) ∧
      (collisionState.jobs[15]?).map (fun j => (j.pid, j.jid)) = some (17, 1) ∧
      ¬ JidsDistinct collisionState.jobs := by
  have hrun : runOps (initShell false) collisionOps = some collisionState := by decide
  have h0 : (collisionState.jobs[0]?).map (fun j => (j.pid, j.jid)) = some (1, 1) := by decide
  have h15 : (collisionState.jobs[15]?).map (fun j => (j.pid, j.jid)) = some (17, 1) := by
    decide
  refine ⟨hrun, ⟨false, collisionOps, hrun⟩, h0, h15, ?_⟩
  intro hd
  cases ha : collisionState.jobs[0]? with
  | none => rw [ha] at h0; exact absurd h0 (by simp)
  | some ja =>
    cases hb : collisionState.jobs[15]? with
    | none => rw [hb] at h15; exact absurd h15 (by simp)
    | some jb =>
      rw [ha] at h0
      rw [hb] at h15
      simp only [Option.map_some', Option.some.injEq, Prod.mk.injEq] at h0 h15
      refine hd 0 15 ja jb ha hb (by decide) ?_ ?_ ?_
      · rw [h0.1]; decide
      · rw [h15.1]; decide
      · rw [h0.2, h15.2]

/-- Claim C2: in every state the shell reaches by its steps (a launch by `eval`, the bg and
fg built-ins, a run of the reaper, and the return of `waitfg` once `pid == fgpid(jobs)` is
false) at most one slot has state `FG`, and no slot is `FG` when a command is accepted. -/
theorem at_most_one_foreground (sys : Sys) (h : ShellReach sys) :
    AtMostOneFG sys.sh.jobs ∧ (sys.waiting = none → NoFG sys.sh.jobs) := by
  have hinv := FgInv_reach h
  constructor
  · cases hw : sys.waiting with
    | none => rw [hw] at hinv; exact AtMostOneFG_of_NoFG hinv
    | some p => rw [hw] at hinv; exact hinv.1
  · intro hw
    rw [hw] at hinv
    exact hinv

/-- Witness for C2: the state after a foreground launch of pid 7 is reached, and there
the property holds. -/
theorem at_most_one_foreground_witness :
    ShellReach fgLaunchSys ∧
      AtMostOneFG fgLaunchSys.sh.jobs ∧ (fgLaunchSys.waiting = none → NoFG fgLaunchSys.sh.jobs) :=
  ⟨⟨false, Relation.ReflTransGen.single (Step.launch (initShell false) 7 false "sleep 5\n")⟩,
    at_most_one_foreground fgLaunchSys
      ⟨false, Relation.ReflTransGen.single (Step.launch (initShell false) 7 false "sleep 5\n")⟩⟩

/-- Counterexample for C3: the table holds an active job with jid 1 (pid 5, stopped), and
`bg 1` and `fg 1` look the number 1 up as a pid, report "No such job", send no signal and
leave the job stopped. -/
theorem bg_by_jid_finds_no_job :
    stoppedJobTable.jobs[0]? = some { pid := 5, jid := 1, state := ST, cmdline := "sleep 5\n" } ∧
      sscanf_d "1" = some 1 ∧
      do_bgfg stoppedJobTable ["bg", "1"] =
        { st := stoppedJobTable, effects := [Effect.print "No such job\n"], wait := none } ∧
      do_bgfg stoppedJobTable ["fg", "1"] =
        { st := stoppedJobTable, effects := [Effect.print "No such job\n"], wait := none } := by
  decide

/-- Claim C3, amended: bg and fg address a job by its process id.  When some slot has pid
`n >= 1` and the argument scans to `n`, `bg` sends `SIGCONT` to the group `-n` and sets
the first slot with pid `n` to `BG`, `fg` sends `SIGCONT` to `-n`, sets that slot to `FG`
and waits for `n`; every other slot is unchanged, and a job that is `BG` stays `BG`
under `bg`. -/
theorem do_bgfg_addresses_by_pid (s : Shell) (arg : String) (more : List String) (n : Int)
    (hn : 1 ≤ n) (harg : sscanf_d arg = some n) (htracked : ∃ j ∈ s.jobs, j.pid = n) :
    ∃ (i : Nat) (job : job_t), s.jobs[i]? = some job ∧ job.pid = n ∧
      (∀ (k : Nat), k < i → ∀ (j' : job_t), s.jobs[k]? = some j' → j'.pid ≠ n) ∧
      do_bgfg s ("bg" :: arg :: more) =
        { st := { s with jobs := s.jobs.set i { job with state := BG } }
          effects := [Effect.kill (-n) Signo.SIGCONT]
          wait := none } ∧
      do_bgfg s ("fg" :: arg :: more) =
        { st := { s with jobs := s.jobs.set i { job with state := FG } }
          effects := [Effect.kill (-n) Signo.SIGCONT]
          wait := some n } ∧
      (∀ (x : job_t), (s.jobs.set i x)[i]? = some x ∧
        ∀ (k : Nat), k ≠ i → (s.jobs.set i x)[k]? = s.jobs[k]?) ∧
      (job.state = BG → (do_bgfg s ("bg" :: arg :: more)).st = s) := by
  obtain ⟨i, job, hg, h1, h2, h3⟩ := getjobpid_of_mem hn htracked
  have hlt : i < s.jobs.length := (List.getElem?_eq_some_iff.mp h1).1
  have hbg : do_bgfg s ("bg" :: arg :: more) =
      { st := { s with jobs := s.jobs.set i { job with state := BG } }
        effects := [Effect.kill (-n) Signo.SIGCONT]
        wait := none } := by
    simp only [do_bgfg, harg, hg, if_true, h2]
  have hfg : do_bgfg s ("fg" :: arg :: more) =
      { st := { s with jobs := s.jobs.set i { job with state := FG } }
        effects := [Effect.kill (-n) Signo.SIGCONT]
        wait := some n } := by
    have hne : ¬ (("fg" : String) = "bg") := by decide
    simp only [do_bgfg, harg, hg, hne, if_false, h2]
  refine ⟨i, job, h1, h2, h3, hbg, hfg, ?_, ?_⟩
  · intro x
    exact ⟨List.getElem?_set_self hlt, fun k hk => List.getElem?_set_ne (fun e => hk e.symm)⟩
  · intro hst
    rw [hbg]
    have hj : ({ job with state := BG } : job_t) = job := by
      rw [← hst]
    rw [hj]
    have hset : s.jobs.set i job = s.jobs := by
      apply List.ext_getElem?
      intro k
      by_cases hk : i = k
      · subst hk; rw [List.getElem?_set_self hlt, h1]
      · rw [List.getElem?_set_ne hk]
    rw [hset]

/-- Witness for C3 amended: the stopped job with pid 5 and the argument "5". -/
theorem do_bgfg_addresses_by_pid_witness :
    (1 : Int) ≤ 5 ∧ sscanf_d "5" = some 5 ∧ (∃ j ∈ stoppedJobTable.jobs, j.pid = 5) ∧
      ∃ (i : Nat) (job : job_t), stoppedJobTable.jobs[i]? = some job ∧ job.pid = 5 ∧
        (∀ (k : Nat), k < i → ∀ (j' : job_t), stoppedJobTable.jobs[k]? = some j' → j'.pid ≠ 5) ∧
        do_bgfg stoppedJobTable ("bg" :: "5" :: []) =
          { st := { stoppedJobTable with
              jobs := stoppedJobTable.jobs.set i { job with state := BG } }
            effects := [Effect.kill (-5) Signo.SIGCONT]
            wait := none } ∧
        do_bgfg stoppedJobTable ("fg" :: "5" :: []) =
          { st := { stoppedJobTable with
              jobs := stoppedJobTable.jobs.set i { job with state := FG } }
            effects := [Effect.kill (-5) Signo.SIGCONT]
            wait := some 5 } ∧
        (∀ (x : job_t), (stoppedJobTable.jobs.set i x)[i]? = some x ∧
          ∀ (k : Nat), k ≠ i → (stoppedJobTable.jobs.set i x)[k]? = stoppedJobTable.jobs[k]?) ∧
        (job.state = BG → (do_bgfg stoppedJobTable ("bg" :: "5" :: [])).st = stoppedJobTable) :=
  ⟨by decide, by decide, ⟨_, List.mem_cons_self _ _, rfl⟩,
    do_bgfg_addresses_by_pid stoppedJobTable "5" [] 5 (by decide) (by decide)
      ⟨_, List.mem_cons_self _ _, rfl⟩⟩

/-- Claim C4: on a table whose `MAXJOBS` (16) slots are all occupied, `addjob` with
`pid >= 1`, any state and any command text returns 0, prints "Tried to create too many
jobs" and leaves the slots, `nextjid` and `verbose` as they were; the table has 16 occupied
slots, and after any `addjob` call on it the number of occupied slots is at most 16. -/
theorem addjob_full_table (s : Shell) (pid state : Int) (cmdline : String)
    (hsize : s.jobs.length = MAXJOBS) (hfull : ∀ j ∈ s.jobs, j.pid ≠ 0) (hpid : 1 ≤ pid) :
    addjob s pid state cmdline =
        { ret := 0, st := s, out := ["Tried to create too many jobs\n"] } ∧
      occupied s.jobs = 16 ∧
      ∀ (pid1 state1 : Int) (cmdline1 : String),
        occupied (addjob s pid1 state1 cmdline1).st.jobs ≤ 16 := by
  have hnone : findSlot (fun j => decide (j.pid = 0)) s.jobs = none := by
    rw [findSlot_none_iff]
    intro j hj
    simpa using hfull j hj
  refine ⟨?_, ?_, ?_⟩
  · unfold addjob
    rw [if_neg (by omega), hnone]
  · unfold occupied
    rw [List.countP_eq_length.mpr (fun j hj => by simpa using hfull j hj), hsize]
    rfl
  · intro pid1 state1 cmdline1
    have h := occupied_le_length (addjob s pid1 state1 cmdline1).st.jobs
    rw [addjob_length, hsize] at h
    exact h

/-- Witness for C4: the table holding pids 1 to 16, and pid 99. -/
theorem addjob_full_table_witness :
    fullTable.jobs.length = MAXJOBS ∧ (∀ j ∈ fullTable.jobs, j.pid ≠ 0) ∧ (1 : Int) ≤ 99 ∧
      (addjob fullTable 99 FG "ls\n" =
          { ret := 0, st := fullTable, out := ["Tried to create too many jobs\n"] } ∧
        occupied fullTable.jobs = 16 ∧
        ∀ (pid1 state1 : Int) (cmdline1 : String),
          occupied (addjob fullTable pid1 state1 cmdline1).st.jobs ≤ 16) :=
  ⟨by decide, by decide, by decide,
    addjob_full_table fullTable 99 FG "ls\n" (by decide) (by decide) (by decide)⟩

/-- Claim C5: on a table with a free slot (pid == 0), `addjob` with `pid >= 1` returns 1;
the lowest-index free slot `i` becomes (pid, jid = `nextjid` before the call, the given
state, the given command text) and every other slot is unchanged. -/
theorem addjob_first_free_slot (s : Shell) (pid state : Int) (cmdline : String)
    (hfree : ∃ j ∈ s.jobs, j.pid = 0) (hpid : 1 ≤ pid) :
    ∃ (i : Nat) (job : job_t), s.jobs[i]? = some job ∧ job.pid = 0 ∧
      (∀ (k : Nat), k < i → ∀ (j' : job_t), s.jobs[k]? = some j' → j'.pid ≠ 0) ∧
      (addjob s pid state cmdline).ret = 1 ∧
      (addjob s pid state cmdline).st.jobs[i]? =
        some { pid := pid, jid := s.nextjid, state := state, cmdline := cmdline } ∧
      (∀ k, k ≠ i → (addjob s pid state cmdline).st.jobs[k]? = s.jobs[k]?) ∧
      (addjob s pid state cmdline).st.jobs =
        s.jobs.set i { pid := pid, jid := s.nextjid, state := state, cmdline := cmdline } := by
  obtain ⟨j, hj, hp⟩ := hfree
  obtain ⟨i, job, hfs⟩ :=
    findSlot_isSome_of_mem (p := fun j => decide (j.pid = 0)) hj (by simpa using hp)
  obtain ⟨h1, h2, h3⟩ := (findSlot_some_iff _ _ _ _).mp hfs
  have hlt : i < s.jobs.length := (List.getElem?_eq_some_iff.mp h1).1
  have hjobs : (addjob s pid state cmdline).st.jobs =
      s.jobs.set i { pid := pid, jid := s.nextjid, state := state, cmdline := cmdline } := by
    unfold addjob
    rw [if_neg (by omega), hfs]
  refine ⟨i, job, h1, by simpa using h2, ?_, ?_, ?_, ?_, hjobs⟩
  · intro k hk j' hj'
    simpa using h3 k hk j' hj'
  · unfold addjob
    rw [if_neg (by omega), hfs]
  · rw [hjobs]
    exact List.getElem?_set_self hlt
  · intro k hk
    rw [hjobs]
    exact List.getElem?_set_ne (fun e => hk e.symm)

/-- Witness for C5: the first launch of a shell, pid 7 in the background. -/
theorem addjob_first_free_slot_witness :
    (∃ j ∈ (initShell false).jobs, j.pid = 0) ∧ (1 : Int) ≤ 7 ∧
      ∃ (i : Nat) (job : job_t), (initShell false).jobs[i]? = some job ∧ job.pid = 0 ∧
        (∀ (k : Nat), k < i → ∀ (j' : job_t), (initShell false).jobs[k]? = some j' → j'.pid ≠ 0) ∧
        (addjob (initShell false) 7 BG "sleep 5 &\n").ret = 1 ∧
        (addjob (initShell false) 7 BG "sleep 5 &\n").st.jobs[i]? =
          some { pid := 7, jid := (initShell false).nextjid, state := BG,
                 cmdline := "sleep 5 &\n" } ∧
        (∀ (k : Nat), k ≠ i →
          (addjob (initShell false) 7 BG "sleep 5 &\n").st.jobs[k]? =
            (initShell false).jobs[k]?) ∧
        (addjob (initShell false) 7 BG "sleep 5 &\n").st.jobs =
          (initShell false).jobs.set i
            { pid := 7, jid := (initShell false).nextjid, state := BG,
              cmdline := "sleep 5 &\n" } :=
  ⟨⟨emptySlot, by decide, rfl⟩, by decide,
    addjob_first_free_slot (initShell false) 7 BG "sleep 5 &\n"
      ⟨emptySlot, by decide, rfl⟩ (by decide)⟩

/-- `deletejob` on a table whose free slots carry no positive jid: the first slot with the
pid is cleared and `nextjid` becomes the maximum jid over the remaining occupied slots
plus one; without such a slot nothing changes. -/
theorem deletejob_rebases_of_free_jid (s : Shell) (pid : Int)
    (hfree : ∀ j ∈ s.jobs, j.pid = 0 → j.jid ≤ 0) :
    ((1 ≤ pid ∧ ∃ j ∈ s.jobs, j.pid = pid) →
      ∃ (i : Nat) (job : job_t), s.jobs[i]? = some job ∧ job.pid = pid ∧
        (∀ (k : Nat), k < i → ∀ (j' : job_t), s.jobs[k]? = some j' → j'.pid ≠ pid) ∧
        (deletejob s pid).ret = 1 ∧
        (deletejob s pid).st.jobs[i]? = some emptySlot ∧
        (∀ k, k ≠ i → (deletejob s pid).st.jobs[k]? = s.jobs[k]?) ∧
        (deletejob s pid).st.nextjid = specMaxActiveJid (deletejob s pid).st.jobs + 1) ∧
    ((pid < 1 ∨ ∀ j ∈ s.jobs, j.pid ≠ pid) →
      (deletejob s pid).ret = 0 ∧ (deletejob s pid).st = s) := by
  constructor
  · rintro ⟨hpid, htracked⟩
    obtain ⟨i, job, hg, h1, h2, h3⟩ := getjobpid_of_mem hpid htracked
    have hlt : i < s.jobs.length := (List.getElem?_eq_some_iff.mp h1).1
    have hfs : findSlot (fun j => decide (j.pid = pid)) s.jobs = some (i, job) := by
      unfold getjobpid at hg
      rw [if_neg (by omega)] at hg
      exact hg
    have hrun : deletejob s pid =
        { ret := 1
          st := { s with jobs := s.jobs.set i emptySlot
                         nextjid := maxjid (s.jobs.set i emptySlot) + 1 }
          out := [] } := by
      unfold deletejob
      rw [if_neg (by omega), hfs]
      rfl
    refine ⟨i, job, h1, h2, h3, ?_, ?_, ?_, ?_⟩
    · rw [hrun]
    · rw [hrun]; exact List.getElem?_set_self hlt
    · intro k hk
      rw [hrun]; exact List.getElem?_set_ne (fun e => hk e.symm)
    · rw [hrun]
      simp only
      rw [maxjid_eq_spec _ (fun j hj hp => mem_set_self_free hfree hj hp)]
  · intro h
    unfold deletejob
    rcases h with hlt | hno
    · rw [if_pos hlt]
      exact ⟨rfl, rfl⟩
    · split
      · exact ⟨rfl, rfl⟩
      · have hnone : findSlot (fun j => decide (j.pid = pid)) s.jobs = none := by
          rw [findSlot_none_iff]
          intro j hj
          simpa using hno j hj
        rw [hnone]
        exact ⟨rfl, rfl⟩

/-- The reaper's stop for a pid that sits in exactly one slot: that slot gets state `ST`,
the rest is unchanged, and `fgpid(jobs)` is not the pid afterwards. -/
theorem stop_demotes_only_slot (s : Shell) (pid stopsig : Int) (i : Nat) (job : job_t)
    (hpid : 1 ≤ pid) (hslot : s.jobs[i]? = some job) (hp : job.pid = pid)
    (hfg : job.state = FG)
    (honly : ∀ (k : Nat) (j' : job_t), s.jobs[k]? = some j' → j'.pid = pid → k = i) :
    ∃ s1, sigchld_handler s [(pid, Status.stopped stopsig)] =
        some (s1, ["Job [" ++ toString job.jid ++ "] (" ++ toString pid
          ++ ") stopped by signal " ++ toString stopsig ++ "\n"]) ∧
      s1.jobs[i]? = some { pid := pid, jid := job.jid, state := ST, cmdline := job.cmdline } ∧
      (∀ (k : Nat), k ≠ i → s1.jobs[k]? = s.jobs[k]?) ∧
      s1.nextjid = s.nextjid ∧
      fgpid s1.jobs ≠ pid ∧
      waitfg_cond s1.jobs pid = false := by
  have _hstate : job.state = FG := hfg
  have hlt : i < s.jobs.length := (List.getElem?_eq_some_iff.mp hslot).1
  have hg : getjobpid s.jobs pid = some (i, job) :=
    getjobpid_eq_of_first hpid hslot hp
      (fun k hk j' hj' he => absurd (honly k j' hj' he) (by omega))
  have hfgpid : fgpid (s.jobs.set i { job with state := ST }) ≠ pid := by
    intro he
    unfold fgpid at he
    cases hf : findSlot (fun j => decide (j.state = FG)) (s.jobs.set i { job with state := ST }) with
    | none => rw [hf] at he; simp only at he; omega
    | some r =>
      obtain ⟨k, j2⟩ := r
      rw [hf] at he
      simp only at he
      obtain ⟨h1, h2, _⟩ := (findSlot_some_iff _ _ _ _).mp hf
      have h2' : j2.state = FG := by simpa using h2
      rcases getElem?_set_cases h1 with ⟨_, e⟩ | ⟨hne, h1'⟩
      · rw [e] at h2'
        exact absurd h2' (by simp only [ST, FG]; decide)
      · exact hne (honly k j2 h1' he)
  refine ⟨{ s with jobs := s.jobs.set i { job with state := ST } }, ?_, ?_, ?_, rfl, hfgpid, ?_⟩
  · simp only [sigchld_handler, reap_one, hg, hp]
    rw [if_pos (by omega)]
    simp
  · simp only
    rw [List.getElem?_set_self hlt, ← hp]
  · intro k hk
    exact List.getElem?_set_ne (fun e => hk e.symm)
  · simp only [waitfg_cond, decide_eq_false_iff_not]
    exact fun e => hfgpid e.symm

/-- Claim C8: on a table whose occupied slots have pairwise-distinct pids and in which pid
(at least 1) is tracked in slot `i`, the reaper's run on a normal exit or on a death by
signal n for pid leaves the globals of `deletejob(jobs, pid)`: no slot has that pid, slot
`i` is cleared and every other slot is unchanged; on a death by signal it prints
"Job [jid] (pid) terminated by signal n" with the jid and pid the job had before. -/
theorem termination_removes_exactly_that_job (s : Shell) (pid : Int) (i : Nat) (job : job_t)
    (hdistinct : PidsDistinct s.jobs) (hpid : 1 ≤ pid) (hslot : s.jobs[i]? = some job)
    (hp : job.pid = pid) :
    (∀ (code : Int),
        sigchld_handler s [(pid, Status.exited code)] = some ((deletejob s pid).st, [])) ∧
      (∀ (termsig : Int),
        sigchld_handler s [(pid, Status.signaled termsig)] =
          some ((deletejob s pid).st,
            ["Job [" ++ toString job.jid ++ "] (" ++ toString pid
              ++ ") terminated by signal " ++ toString termsig ++ "\n"])) ∧
      (∀ j ∈ (deletejob s pid).st.jobs, j.pid ≠ pid) ∧
      (deletejob s pid).st.jobs[i]? = some emptySlot ∧
      (∀ (k : Nat), k ≠ i → (deletejob s pid).st.jobs[k]? = s.jobs[k]?) := by
  have hlt : i < s.jobs.length := (List.getElem?_eq_some_iff.mp hslot).1
  have hne : job.pid ≠ 0 := by omega
  have hg : getjobpid s.jobs pid = some (i, job) :=
    getjobpid_eq_of_first hpid hslot hp (fun k hk j' hj' he => by
      have := hdistinct i k job j' hslot hj' hne (by rw [hp, he])
      omega)
  have hfs : findSlot (fun j => decide (j.pid = pid)) s.jobs = some (i, job) := by
    unfold getjobpid at hg
    rw [if_neg (by omega)] at hg
    exact hg
  have hjobs : (deletejob s pid).st.jobs = s.jobs.set i emptySlot := by
    unfold deletejob
    rw [if_neg (by omega), hfs]
    rfl
  refine ⟨?_, ?_, ?_, ?_, ?_⟩
  · intro code
    simp only [sigchld_handler, reap_one]
    rw [if_pos (by omega)]
    simp
  · intro termsig
    simp only [sigchld_handler, reap_one, hg, hp]
    rw [if_pos (by omega)]
    simp
  · intro j hj he
    rw [hjobs] at hj
    obtain ⟨k, hk⟩ := List.mem_iff_getElem?.mp hj
    rcases getElem?_set_cases hk with ⟨_, e⟩ | ⟨hki, hk'⟩
    · rw [e] at he
      simp only [emptySlot] at he
      omega
    · exact hki (hdistinct i k job j hslot hk' hne (by rw [hp, he])).symm
  · rw [hjobs]; exact List.getElem?_set_self hlt
  · intro k hk
    rw [hjobs]; exact List.getElem?_set_ne (fun e => hk e.symm)

/-- Witness for C8: the background job with pid 6 in the two-job table. -/
theorem termination_removes_exactly_that_job_witness :
    PidsDistinct twoJobTable.jobs ∧ (1 : Int) ≤ 6 ∧
      twoJobTable.jobs[1]? = some { pid := 6, jid := 2, state := BG, cmdline := "sleep 6 &\n" } ∧
      ((∀ (code : Int),
        sigchld_handler twoJobTable [(6, Status.exited code)] =
          some ((deletejob twoJobTable 6).st, [])) ∧
      (∀ (termsig : Int),
        sigchld_handler twoJobTable [(6, Status.signaled termsig)] =
          some ((deletejob twoJobTable 6).st,
            ["Job [" ++ toString (2 : Int) ++ "] (" ++ toString (6 : Int)
              ++ ") terminated by signal " ++ toString termsig ++ "\n"])) ∧
      (∀ j ∈ (deletejob twoJobTable 6).st.jobs, j.pid ≠ 6) ∧
      (deletejob twoJobTable 6).st.jobs[1]? = some emptySlot ∧
      (∀ (k : Nat), k ≠ 1 → (deletejob twoJobTable 6).st.jobs[k]? = twoJobTable.jobs[k]?)) :=
  ⟨PidsDistinct_twoJobTable, by decide, rfl,
    termination_removes_exactly_that_job twoJobTable 6 1
      { pid := 6, jid := 2, state := BG, cmdline := "sleep 6 &\n" }
      PidsDistinct_twoJobTable (by decide) rfl rfl⟩

/-- Claim C9: `getjobpid(jobs, k)` and `getjobjid(jobs, k)` return `NULL` when `k <= 0`;
when `k >= 1` they return slot `i` exactly when it is the lowest-index slot whose pid
(resp. jid) is `k`, and `NULL` exactly when no slot has pid (resp. jid) `k`; the slot
returned is never the empty slot. -/
theorem lookups_sound_and_complete (jobs : List job_t) (k : Int) :
    (k ≤ 0 → getjobpid jobs k = none ∧ getjobjid jobs k = none) ∧
    (1 ≤ k →
      (∀ (i : Nat) (job : job_t), getjobpid jobs k = some (i, job) ↔
        jobs[i]? = some job ∧ job.pid = k ∧
          ∀ (m : Nat), m < i → ∀ (j' : job_t), jobs[m]? = some j' → j'.pid ≠ k) ∧
      (getjobpid jobs k = none ↔ ∀ j ∈ jobs, j.pid ≠ k) ∧
      (∀ (i : Nat) (job : job_t), getjobjid jobs k = some (i, job) ↔
        jobs[i]? = some job ∧ job.jid = k ∧
          ∀ (m : Nat), m < i → ∀ (j' : job_t), jobs[m]? = some j' → j'.jid ≠ k) ∧
      (getjobjid jobs k = none ↔ ∀ j ∈ jobs, j.jid ≠ k)) ∧
    (∀ (i : Nat) (job : job_t), getjobpid jobs k = some (i, job) → job ≠ emptySlot) ∧
    (∀ (i : Nat) (job : job_t), getjobjid jobs k = some (i, job) → job ≠ emptySlot) := by
  refine ⟨?_, ?_, ?_, ?_⟩
  · intro hk
    unfold getjobpid getjobjid
    rw [if_pos (by omega), if_pos (by omega)]
    exact ⟨rfl, rfl⟩
  · intro hk
    unfold getjobpid getjobjid
    rw [if_neg (by omega), if_neg (by omega)]
    refine ⟨?_, ?_, ?_, ?_⟩
    · intro i job
      rw [findSlot_some_iff]
      simp
    · rw [findSlot_none_iff]
      simp
    · intro i job
      rw [findSlot_some_iff]
      simp
    · rw [findSlot_none_iff]
      simp
  · intro i job h
    unfold getjobpid at h
    split at h
    · exact absurd h (by simp)
    · rename_i hk
      exact findSlot_ne_emptySlot h (by simp only [emptySlot, decide_eq_false_iff_not]; omega)
  · intro i job h
    unfold getjobjid at h
    split at h
    · exact absurd h (by simp)
    · rename_i hk
      exact findSlot_ne_emptySlot h (by simp only [emptySlot, decide_eq_false_iff_not]; omega)

/-- Witness for C9: pid 6 and jid 2 are both found in slot 1 of the two-job table. -/
theorem lookups_sound_and_complete_witness :
    getjobpid twoJobTable.jobs 6 =
        some (1, { pid := 6, jid := 2, state := BG, cmdline := "sleep 6 &\n" }) ∧
      (getjobpid twoJobTable.jobs 0 = none ∧ getjobjid twoJobTable.jobs 0 = none) :=
  ⟨(((lookups_sound_and_complete twoJobTable.jobs 6).2.1 (by decide)).1 1
      { pid := 6, jid := 2, state := BG, cmdline := "sleep 6 &\n" }).mpr
      ⟨rfl, rfl, fun m hm j' hj' he => by
        rcases twoJobTable_slots m j' hj' with ⟨_, a2⟩ | ⟨a1, _⟩ | a2
        · subst a2; simp only at he; omega
        · omega
        · subst a2; simp only [emptySlot] at he; omega⟩,
    (lookups_sound_and_complete twoJobTable.jobs 0).1 (by decide)⟩

/-- Claim C10: on a table in which at most one slot has state `FG` and every `FG` slot has
`pid > 0`, `fgpid(jobs)` returns `p > 0` exactly when a slot with pid `p` has state `FG`,
and returns 0 exactly when no slot has state `FG`. -/
theorem fgpid_identifies_foreground_job (jobs : List job_t) (hone : AtMostOneFG jobs)
    (hpos : ∀ j ∈ jobs, j.state = FG → 0 < j.pid) :
    (∀ (p : Int), 0 < p → (fgpid jobs = p ↔ ∃ j ∈ jobs, j.pid = p ∧ j.state = FG)) ∧
      (fgpid jobs = 0 ↔ NoFG jobs) := by
  constructor
  · intro p hp
    constructor
    · intro h
      unfold fgpid at h
      cases hf : findSlot (fun j => decide (j.state = FG)) jobs with
      | none => rw [hf] at h; simp only at h; omega
      | some r =>
        obtain ⟨i, job⟩ := r
        rw [hf] at h
        obtain ⟨h1, h2, _⟩ := (findSlot_some_iff _ _ _ _).mp hf
        exact ⟨job, List.mem_iff_getElem?.mpr ⟨i, h1⟩, h, by simpa using h2⟩
    · rintro ⟨j, hj, hjp, hjs⟩
      obtain ⟨k, hk⟩ := List.mem_iff_getElem?.mp hj
      obtain ⟨i, job, hfs⟩ :=
        findSlot_isSome_of_mem (p := fun j => decide (j.state = FG)) hj (by simpa using hjs)
      obtain ⟨h1, h2, _⟩ := (findSlot_some_iff _ _ _ _).mp hfs
      have hik := hone i k job j h1 hk (by simpa using h2) hjs
      subst hik
      rw [h1] at hk
      injection hk with hk
      unfold fgpid
      rw [hfs, ← hjp, ← hk]
  · constructor
    · intro h j hj hjs
      obtain ⟨i, job, hfs⟩ :=
        findSlot_isSome_of_mem (p := fun j => decide (j.state = FG)) hj (by simpa using hjs)
      obtain ⟨h1, h2, _⟩ := (findSlot_some_iff _ _ _ _).mp hfs
      unfold fgpid at h
      rw [hfs] at h
      have := hpos job (List.mem_iff_getElem?.mpr ⟨i, h1⟩) (by simpa using h2)
      simp only at h
      omega
    · intro h
      have hnone : findSlot (fun j => decide (j.state = FG)) jobs = none := by
        rw [findSlot_none_iff]
        intro j hj
        simpa using h j hj
      unfold fgpid
      rw [hnone]

/-- Witness for C10: the two-job table, whose foreground job has pid 5. -/
theorem fgpid_identifies_foreground_job_witness :
    AtMostOneFG twoJobTable.jobs ∧ (∀ j ∈ twoJobTable.jobs, j.state = FG → 0 < j.pid) ∧
      ((∀ (p : Int), 0 < p →
          (fgpid twoJobTable.jobs = p ↔ ∃ j ∈ twoJobTable.jobs, j.pid = p ∧ j.state = FG)) ∧
        (fgpid twoJobTable.jobs = 0 ↔ NoFG twoJobTable.jobs)) :=
  ⟨AtMostOneFG_twoJobTable, by decide,
    fgpid_identifies_foreground_job twoJobTable.jobs AtMostOneFG_twoJobTable (by decide)⟩

/-- Claim C11: `sigint_handler` (resp. `sigtstp_handler`) issues exactly one `kill`, with
target `-p` and signal `SIGINT` (resp. `SIGTSTP`), when `p = fgpid(jobs)` is not 0; it
issues no `kill` when no slot is `FG`; in both cases the globals are unchanged. -/
theorem keyboard_signals_go_to_foreground_group (s : Shell) :
    (fgpid s.jobs ≠ 0 →
        sigint_handler s = (s, [Effect.kill (-(fgpid s.jobs)) Signo.SIGINT]) ∧
        sigtstp_handler s = (s, [Effect.kill (-(fgpid s.jobs)) Signo.SIGTSTP])) ∧
      (NoFG s.jobs → sigint_handler s = (s, []) ∧ sigtstp_handler s = (s, [])) ∧
      (sigint_handler s).1 = s ∧ (sigtstp_handler s).1 = s := by
  refine ⟨?_, ?_, rfl, rfl⟩
  · intro h
    simp only [sigint_handler, sigtstp_handler, h, ne_eq, not_false_eq_true, if_true, and_self]
  · intro h
    have hnone : findSlot (fun j => decide (j.state = FG)) s.jobs = none := by
      rw [findSlot_none_iff]
      intro j hj
      simpa using h j hj
    have h0 : fgpid s.jobs = 0 := by
      unfold fgpid
      rw [hnone]
    simp only [sigint_handler, sigtstp_handler, h0, ne_eq, not_true_eq_false, if_false, and_self]

/-- Witness for C11: with pid 5 in the foreground the interrupt goes to the group -5;
with no foreground job the stop request sends nothing. -/
theorem keyboard_signals_go_to_foreground_group_witness :
    sigint_handler twoJobTable = (twoJobTable, [Effect.kill (-5) Signo.SIGINT]) ∧
      sigtstp_handler stoppedJobTable = (stoppedJobTable, []) :=
  ⟨((keyboard_signals_go_to_foreground_group twoJobTable).1 (by decide)).1,
    ((keyboard_signals_go_to_foreground_group stoppedJobTable).2.1 (by
      intro j hj; revert j; decide)).2⟩

theorem listjobs_from_eq (jobs : List job_t) (i : Nat)
    (hstate : ∀ j ∈ jobs, j.pid ≠ 0 → j.state = FG ∨ j.state = BG ∨ j.state = ST) :
    listjobs_from i jobs = specListing jobs := by
  induction jobs generalizing i with
  | nil => rfl
  | cons a l ih =>
    have hl : ∀ j ∈ l, j.pid ≠ 0 → j.state = FG ∨ j.state = BG ∨ j.state = ST :=
      fun j hj => hstate j (List.mem_cons_of_mem _ hj)
    have ih' := ih (i + 1) hl
    unfold specListing at ih' ⊢
    by_cases ha : a.pid = 0
    · simp only [listjobs_from, ha, ne_eq, not_true_eq_false, if_false, List.nil_append,
        List.filter_cons, decide_False, Bool.false_eq_true]
      exact ih'
    · have hlab : stateText i a = specLabel a.state := by
        unfold stateText specLabel
        rcases hstate a (List.mem_cons_self _ _) ha with h | h | h
        · rw [h]; simp [FG, BG]
        · rw [h]; simp [BG]
        · rw [h]; simp [FG, BG, ST]
      simp only [listjobs_from, ha, ne_eq, not_false_eq_true, if_true, List.filter_cons,
        decide_True, List.flatMap_cons, specEntry, hlab]
      rw [ih']

/-- Claim C12: on a table whose occupied slots have state `FG`, `BG` or `ST`, the strings
printed by `listjobs` are, in increasing slot index over exactly the slots with pid != 0,
`[jid] (pid) ` then "Running " for `BG`, "Foreground " for `FG` or "Stopped " for `ST`, then
the command text, so the text printed is their concatenation; a table whose only
occupied slot is a `BG` job prints that one entry, with "Running " and the command text. -/
theorem listjobs_renders_occupied_slots (jobs : List job_t)
    (hstate : ∀ j ∈ jobs, j.pid ≠ 0 → j.state = FG ∨ j.state = BG ∨ j.state = ST) :
    listjobs jobs = specListing jobs ∧
      String.join (listjobs jobs) = String.join (specListing jobs) ∧
      (∀ (j : job_t), jobs.filter (fun j => decide (j.pid ≠ 0)) = [j] → j.state = BG →
        listjobs jobs =
          ["[" ++ toString j.jid ++ "] (" ++ toString j.pid ++ ") ", "Running ", j.cmdline]) := by
  have h := listjobs_from_eq jobs 0 hstate
  refine ⟨h, ?_, ?_⟩
  · unfold listjobs
    rw [h]
  · intro j hj hbg
    unfold listjobs
    rw [h]
    unfold specListing
    rw [hj]
    simp only [List.flatMap_cons, List.flatMap_nil, List.append_nil, specEntry, specLabel, hbg,
      if_true]


/-- Witness for C12: the listing of the two-job table. -/
theorem listjobs_renders_occupied_slots_witness :
    (∀ j ∈ twoJobTable.jobs, j.pid ≠ 0 → j.state = FG ∨ j.state = BG ∨ j.state = ST) ∧
      (listjobs twoJobTable.jobs = specListing twoJobTable.jobs ∧
        String.join (listjobs twoJobTable.jobs) = String.join (specListing twoJobTable.jobs) ∧
        (∀ (j : job_t), twoJobTable.jobs.filter (fun j => decide (j.pid ≠ 0)) = [j] →
          j.state = BG →
          listjobs twoJobTable.jobs =
            ["[" ++ toString j.jid ++ "] (" ++ toString j.pid ++ ") ", "Running ",
              j.cmdline])) :=
  ⟨by decide, listjobs_renders_occupied_slots twoJobTable.jobs (by decide)⟩

/-- Claim C13, evaluated on the code: after fifteen launches `nextjid` is 16; the
sixteenth `addjob` succeeds and leaves `nextjid = 1`, although 16 + 1 does not exceed
`MAXJID` (65536): `addjob` compares with `MAXJOBS`. -/
theorem nextjid_wraps_at_MAXJOBS :
    (afterLaunches 15).nextjid = 16 ∧
      (addjob (afterLaunches 15) 16 BG "sleep 9 &\n").ret = 1 ∧
      (addjob (afterLaunches 15) 16 BG "sleep 9 &\n").st.nextjid = 1 ∧
      ((16 : Int) + 1 ≤ (MAXJID : Int)) ∧ MAXJID = 65536 := by
  decide

/-- Claim C20: on a table with all 16 slots occupied and no slot `FG`, for a new
`pid >= 1`, the `addjob` of a foreground launch fails, `eval` leaves the globals unchanged
and prints the too-many-jobs message, `fgpid(jobs) != pid`, and the condition of
`waitfg(pid)` is false. -/
theorem foreground_launch_into_full_table (s : Shell) (pid : Int) (buf : String)
    (hsize : s.jobs.length = MAXJOBS) (hfull : ∀ j ∈ s.jobs, j.pid ≠ 0) (hnofg : NoFG s.jobs)
    (hpid : 1 ≤ pid) (hnew : ∀ j ∈ s.jobs, j.pid ≠ pid) :
    (addjob s pid FG buf).ret = 0 ∧
      eval_parent s pid false buf =
        { st := s, effects := [Effect.print "Tried to create too many jobs\n"],
          wait := some pid } ∧
      fgpid s.jobs ≠ pid ∧
      waitfg_cond (eval_parent s pid false buf).st.jobs pid = false := by
  have _h1 : s.jobs.length = MAXJOBS := hsize
  have _h2 : ∀ j ∈ s.jobs, j.pid ≠ pid := hnew
  have hnone : findSlot (fun j => decide (j.pid = 0)) s.jobs = none := by
    rw [findSlot_none_iff]
    intro j hj
    simpa using hfull j hj
  have hadd : addjob s pid FG buf =
      { ret := 0, st := s, out := ["Tried to create too many jobs\n"] } := by
    unfold addjob
    rw [if_neg (by omega), hnone]
  have hfgnone : findSlot (fun j => decide (j.state = FG)) s.jobs = none := by
    rw [findSlot_none_iff]
    intro j hj
    simpa using hnofg j hj
  have hfg : fgpid s.jobs = 0 := by
    unfold fgpid
    rw [hfgnone]
  have hrun : eval_parent s pid false buf =
      { st := s, effects := [Effect.print "Tried to create too many jobs\n"],
        wait := some pid } := by
    simp only [eval_parent, hadd, Bool.false_eq_true, if_false, List.map_cons, List.map_nil]
  refine ⟨by rw [hadd], hrun, by rw [hfg]; omega, ?_⟩
  rw [hrun]
  simp only [waitfg_cond, hfg, decide_eq_false_iff_not]
  omega

/-- Witness for C20: the table holding pids 1 to 16, and pid 99. -/
theorem foreground_launch_into_full_table_witness :
    fullTable.jobs.length = MAXJOBS ∧ (∀ j ∈ fullTable.jobs, j.pid ≠ 0) ∧
      (∀ j ∈ fullTable.jobs, j.state ≠ FG) ∧ (1 : Int) ≤ 99 ∧
      (∀ j ∈ fullTable.jobs, j.pid ≠ 99) ∧
      ((addjob fullTable 99 FG "ls\n").ret = 0 ∧
        eval_parent fullTable 99 false "ls\n" =
          { st := fullTable, effects := [Effect.print "Tried to create too many jobs\n"],
            wait := some 99 } ∧
        fgpid fullTable.jobs ≠ 99 ∧
        waitfg_cond (eval_parent fullTable 99 false "ls\n").st.jobs 99 = false) :=
  ⟨by decide, by decide, by decide, by decide, by decide,
    foreground_launch_into_full_table fullTable 99 "ls\n" (by decide) (by decide)
      (show ∀ j ∈ fullTable.jobs, j.state ≠ FG from by decide) (by decide) (by decide)⟩

theorem getjobpid_some {jobs : List job_t} {pid : Int} {i : Nat} {job : job_t}
    (h : getjobpid jobs pid = some (i, job)) :
    1 ≤ pid ∧ jobs[i]? = some job ∧ job.pid = pid := by
  unfold getjobpid at h
  split at h
  · exact absurd h (by simp)
  · obtain ⟨h1, h2, _⟩ := (findSlot_some_iff _ _ _ _).mp h
    exact ⟨by omega, h1, by simpa using h2⟩

theorem maxjid_nonneg (jobs : List job_t) : 0 ≤ maxjid jobs := by
  unfold maxjid
  rw [maxjid_foldl jobs 0 (le_refl 0)]
  exact le_max_left _ _

theorem SlotOk_emptySlot : SlotOk emptySlot := Or.inl ⟨rfl, rfl, rfl⟩

theorem SlotOk_set {l : List job_t} {i : Nat} {x : job_t} (h : ∀ j ∈ l, SlotOk j)
    (hx : SlotOk x) : ∀ j ∈ l.set i x, SlotOk j := by
  intro j hj
  rcases List.mem_or_eq_of_mem_set hj with hm | he
  · exact h j hm
  · rw [he]; exact hx

theorem SlotOk_restate {jobs : List job_t} {pid : Int} {i : Nat} {job : job_t} {state : Int}
    (h : ∀ j ∈ jobs, SlotOk j) (hg : getjobpid jobs pid = some (i, job))
    (hstate : state = FG ∨ state = BG ∨ state = ST) :
    ∀ j ∈ jobs.set i { job with state := state }, SlotOk j := by
  obtain ⟨hpid, hslot, hp⟩ := getjobpid_some hg
  refine SlotOk_set h ?_
  rcases h job (List.mem_iff_getElem?.mpr ⟨i, hslot⟩) with ⟨h0, _, _⟩ | ⟨h1, h2, _⟩
  · omega
  · exact Or.inr ⟨h1, h2, hstate⟩

theorem WfReach_inv {s : Shell} (h : WfReach s) : (∀ j ∈ s.jobs, SlotOk j) ∧ 1 ≤ s.nextjid := by
  induction h with
  | init verbose =>
    refine ⟨?_, le_refl 1⟩
    intro j hj
    simp only [initShell, initjobs, MAXJOBS, List.map_replicate, clearjob] at hj
    rw [List.eq_of_mem_replicate hj]
    exact SlotOk_emptySlot
  | add s pid state cmdline _ hpid hstate ih =>
    unfold addjob
    split
    · exact ih
    · split
      · have hjid := ih.2
        refine ⟨SlotOk_set ih.1 (Or.inr ⟨show 0 < pid by omega, show 0 < s.nextjid by omega, ?_⟩),
          ?_⟩
        · rcases hstate with h | h
          · exact Or.inl h
          · exact Or.inr (Or.inl h)
        · simp only
          split
          · exact le_refl 1
          · omega
      · exact ih
  | del s pid _ ih =>
    unfold deletejob
    split
    · exact ih
    · split
      · rename_i i job _
        have hmax := maxjid_nonneg (s.jobs.set i (clearjob job))
        exact ⟨SlotOk_set ih.1 SlotOk_emptySlot,
          show 1 ≤ maxjid (s.jobs.set i (clearjob job)) + 1 by omega⟩
      · exact ih
  | stop s pid stopsig s1 out _ hr ih =>
    simp only [reap_one] at hr
    split at hr
    · exact absurd hr (by simp)
    · rename_i i job hg
      simp only [Option.some.injEq, Prod.mk.injEq] at hr
      rw [← hr.1]
      exact ⟨SlotOk_restate ih.1 hg (Or.inr (Or.inr rfl)), ih.2⟩
  | bgfg s argv _ ih =>
    unfold do_bgfg
    split
    · exact ih
    · split
      · exact ih
      · split
        · split
          · exact ih
          · rename_i i job hg
            split
            · exact ⟨SlotOk_restate ih.1 hg (Or.inr (Or.inl rfl)), ih.2⟩
            · exact ⟨SlotOk_restate ih.1 hg (Or.inl rfl), ih.2⟩
        · exact ih

/-- Claim C16: in every state reached from `initjobs` by `addjob` (pid >= 1, state `FG` or
`BG`), `deletejob`, the reaper's stop transition and the bg and fg built-ins, each slot
has either pid = 0, jid = 0 and state `UNDEF`, or pid > 0, jid > 0 and state `FG`, `BG` or
`ST`; and `nextjid >= 1`. -/
theorem slots_empty_or_well_formed (s : Shell) (h : WfReach s) :
    (∀ j ∈ s.jobs,
        (j.pid = 0 ∧ j.jid = 0 ∧ j.state = UNDEF) ∨
          (0 < j.pid ∧ 0 < j.jid ∧ (j.state = FG ∨ j.state = BG ∨ j.state = ST))) ∧
      1 ≤ s.nextjid :=
  WfReach_inv h

/-- Witness for C16: a foreground launch of pid 5 followed by `bg 5`. -/
theorem slots_empty_or_well_formed_witness :
    WfReach (do_bgfg (addjob (initShell false) 5 FG "sleep 5\n").st ["bg", "5"]).st ∧
      ((∀ j ∈ (do_bgfg (addjob (initShell false) 5 FG "sleep 5\n").st ["bg", "5"]).st.jobs,
          (j.pid = 0 ∧ j.jid = 0 ∧ j.state = UNDEF) ∨
            (0 < j.pid ∧ 0 < j.jid ∧ (j.state = FG ∨ j.state = BG ∨ j.state = ST))) ∧
        1 ≤ (do_bgfg (addjob (initShell false) 5 FG "sleep 5\n").st ["bg", "5"]).st.nextjid) :=
  ⟨WfReach.bgfg _ _ (WfReach.add _ 5 FG _ (WfReach.init false) (by decide) (Or.inl rfl)),
    slots_empty_or_well_formed _
      (WfReach.bgfg _ _ (WfReach.add _ 5 FG _ (WfReach.init false) (by decide) (Or.inl rfl)))⟩

/-- Counterexample for C18: sixteen background launches through `eval` fill the table;
the seventeenth launch (pid 17) prints "Tried to create too many jobs" and leaves the
table as it was, so the child 17 is not in the table: `getjobpid(jobs, 17)` is `NULL`, and
the reaper's run on a death by signal or a stop of pid 17 reads through it. -/
theorem seventeenth_child_is_untracked :
    (afterEvals 16).jobs.map (fun j => j.pid) =
        [1, 2, 3, 4, 5, 6, 7, 8, 9, 10, 11, 12, 13, 14, 15, 16] ∧
      (eval_parent (afterEvals 16) 17 true "sleep 9 &\n").effects =
        [Effect.print "Tried to create too many jobs\n",
          Effect.print "[0] (17) sleep 9 &\n"] ∧
      afterEvals 17 = afterEvals 16 ∧
      getjobpid (afterEvals 17).jobs 17 = none ∧
      sigchld_handler (afterEvals 17) [(17, Status.signaled 9)] = none ∧
      sigchld_handler (afterEvals 17) [(17, Status.stopped 20)] = none := by
  decide

theorem mem_set_of_ne_pid {l : List job_t} {i : Nat} {old x : job_t} {p : Int}
    (hold : l[i]? = some old) (hne : old.pid ≠ p) (h : ∃ j ∈ l, j.pid = p) :
    ∃ j ∈ l.set i x, j.pid = p := by
  obtain ⟨j, hj, hp⟩ := h
  obtain ⟨k, hk⟩ := List.mem_iff_getElem?.mp hj
  have hki : i ≠ k := by
    intro e
    subst e
    rw [hold] at hk
    injection hk with hk
    rw [hk] at hne
    exact hne hp
  exact ⟨j, List.mem_iff_getElem?.mpr ⟨k, by rw [List.getElem?_set_ne hki]; exact hk⟩, hp⟩

theorem addjob_keeps_pid (s : Shell) (pid state : Int) (cmdline : String) {p : Int}
    (hp : 1 ≤ p) (h : ∃ j ∈ s.jobs, j.pid = p) :
    ∃ j ∈ (addjob s pid state cmdline).st.jobs, j.pid = p := by
  unfold addjob
  split
  · exact h
  · split
    · rename_i i job hfs
      obtain ⟨h1, h2, _⟩ := (findSlot_some_iff _ _ _ _).mp hfs
      have h0 : job.pid = 0 := by simpa using h2
      exact mem_set_of_ne_pid h1 (by omega) h
    · exact h

theorem addjob_registers (s : Shell) (pid state : Int) (cmdline : String)
    (h : (addjob s pid state cmdline).ret = 1) :
    1 ≤ pid ∧ ∃ j ∈ (addjob s pid state cmdline).st.jobs, j.pid = pid := by
  unfold addjob at h ⊢
  split
  · rename_i hlt
    rw [if_pos hlt] at h
    simp at h
  · rename_i hge
    rw [if_neg hge] at h
    split
    · rename_i i job hfs
      have hlt := findSlot_lt hfs
      exact ⟨by omega, _, List.mem_iff_getElem?.mpr ⟨i, List.getElem?_set_self hlt⟩, rfl⟩
    · rename_i hnone
      rw [hnone] at h
      simp at h

theorem deletejob_keeps_pid (s : Shell) (pid : Int) {p : Int} (hne : p ≠ pid)
    (h : ∃ j ∈ s.jobs, j.pid = p) : ∃ j ∈ (deletejob s pid).st.jobs, j.pid = p := by
  unfold deletejob
  split
  · exact h
  · split
    · rename_i i job hfs
      obtain ⟨h1, h2, _⟩ := (findSlot_some_iff _ _ _ _).mp hfs
      have h0 : job.pid = pid := by simpa using h2
      exact mem_set_of_ne_pid h1 (by omega) h
    · exact h

theorem restate_keeps_pid {jobs : List job_t} {pid : Int} {i : Nat} {job : job_t} (state : Int)
    (hg : getjobpid jobs pid = some (i, job)) {p : Int} (h : ∃ j ∈ jobs, j.pid = p) :
    ∃ j ∈ jobs.set i { job with state := state }, j.pid = p := by
  obtain ⟨_, hslot, hp⟩ := getjobpid_some hg
  have hlt : i < jobs.length := (List.getElem?_eq_some_iff.mp hslot).1
  by_cases hpp : job.pid = p
  · exact ⟨_, List.mem_iff_getElem?.mpr ⟨i, List.getElem?_set_self hlt⟩, hpp⟩
  · exact mem_set_of_ne_pid hslot hpp h

theorem RegInv_step {a b : World} (hstep : WorldStep a b) (h : RegInv a) : RegInv b := by
  cases hstep with
  | launch pid bg buf =>
    intro p hp
    have hst : (eval_parent a.sh pid bg buf).st = (addjob a.sh pid (if bg then BG else FG) buf).st := by
      cases bg <;> simp [eval_parent]
    simp only [hst]
    by_cases hret : (addjob a.sh pid (if bg then BG else FG) buf).ret = 1
    · simp only [hret, if_true, List.mem_cons] at hp
      rcases hp with he | hm
      · rw [he]; exact addjob_registers _ _ _ _ hret
      · exact ⟨(h p hm).1, addjob_keeps_pid _ _ _ _ (h p hm).1 (h p hm).2⟩
    · simp only [hret, if_false] at hp
      exact ⟨(h p hp).1, addjob_keeps_pid _ _ _ _ (h p hp).1 (h p hp).2⟩
  | reap pid status s1 out hpid hr =>
    intro p hp
    cases status with
    | exited code =>
      simp only [List.mem_filter, decide_eq_true_eq] at hp
      simp only [reap_one, Option.some.injEq, Prod.mk.injEq] at hr
      simp only
      rw [← hr.1]
      exact ⟨(h p hp.1).1, deletejob_keeps_pid _ _ hp.2 (h p hp.1).2⟩
    | signaled termsig =>
      simp only [List.mem_filter, decide_eq_true_eq] at hp
      simp only [reap_one] at hr
      split at hr
      · exact absurd hr (by simp)
      · simp only [Option.some.injEq, Prod.mk.injEq] at hr
        simp only
        rw [← hr.1]
        exact ⟨(h p hp.1).1, deletejob_keeps_pid _ _ hp.2 (h p hp.1).2⟩
    | stopped stopsig =>
      simp only at hp
      simp only [reap_one] at hr
      split at hr
      · exact absurd hr (by simp)
      · rename_i i job hg
        simp only [Option.some.injEq, Prod.mk.injEq] at hr
        simp only
        rw [← hr.1]
        exact ⟨(h p hp).1, restate_keeps_pid ST hg (h p hp).2⟩

theorem RegInv_reach {w : World} (h : WorldReach w) : RegInv w := by
  obtain ⟨v, hr⟩ := h
  induction hr with
  | refl => intro p hp; exact absurd hp (List.not_mem_nil p)
  | tail _ hstep ih => exact RegInv_step hstep ih

/-- Claim C18, amended: in every state reached by launches through `eval` and by
reaping, a child whose `addjob` returned 1 and whose exit or death has not been reaped
is in the job table: `getjobpid(jobs, pid)` finds a slot with that pid, and the reaper's
turn for a death by signal or a stop of that pid does not read through `NULL`. -/
theorem registered_children_are_found (w : World) (h : WorldReach w) (pid : Int)
    (hreg : pid ∈ w.registered) :
    (∃ (i : Nat) (job : job_t), getjobpid w.sh.jobs pid = some (i, job) ∧ job.pid = pid) ∧
      (∀ (n : Int), reap_one w.sh pid (Status.signaled n) ≠ none ∧
        reap_one w.sh pid (Status.stopped n) ≠ none) := by
  obtain ⟨hpos, hin⟩ := RegInv_reach h pid hreg
  obtain ⟨i, job, hg, _, hp, _⟩ := getjobpid_of_mem hpos hin
  refine ⟨⟨i, job, hg, hp⟩, ?_⟩
  intro n
  simp only [reap_one, hg]
  exact ⟨by simp, by simp⟩

/-- Witness for C18 amended: the background child 7 launched from the start. -/
theorem registered_children_are_found_witness :
    WorldReach oneChildWorld ∧ (7 : Int) ∈ oneChildWorld.registered ∧
      ((∃ (i : Nat) (job : job_t),
          getjobpid oneChildWorld.sh.jobs 7 = some (i, job) ∧ job.pid = 7) ∧
        (∀ (n : Int), reap_one oneChildWorld.sh 7 (Status.signaled n) ≠ none ∧
          reap_one oneChildWorld.sh 7 (Status.stopped n) ≠ none)) :=
  ⟨⟨false, Relation.ReflTransGen.single
      (WorldStep.launch { sh := initShell false, registered := [] } 7 true "sleep 5 &\n")⟩,
    by decide,
    registered_children_are_found oneChildWorld
      ⟨false, Relation.ReflTransGen.single
        (WorldStep.launch { sh := initShell false, registered := [] } 7 true "sleep 5 &\n")⟩
      7 (by decide)⟩

/-- Claim C19, evaluated on the code: in `eval` the child is created and `addjob` runs
with `SIGCHLD` blocked, and the mask is restored; in `sigchld_handler` `deletejob` and the
write of `ST` run with `SIGCHLD` blocked, and the mask is restored; but `do_bgfg` never
calls `sigprocmask`: entered with the empty mask, `bg 5` and `fg 5` write the state of
the job with `SIGCHLD` not blocked. -/
theorem do_bgfg_writes_state_with_sigchld_unblocked :
    (∀ (s : Shell) (m : sigset_t) (pid : Int) (bg : Bool) (buf : String),
        (eval_traced s m pid bg buf).st = (eval_parent s pid bg buf).st ∧
        (∀ e ∈ (eval_traced s m pid bg buf).log, e.2 Signo.SIGCHLD = true) ∧
        (eval_traced s m pid bg buf).mask = m) ∧
      (∀ (s : Shell) (m : sigset_t) (pid : Int) (status : Status) (t : Traced),
        reap_traced s m pid status = some t →
          (∀ e ∈ t.log, e.2 Signo.SIGCHLD = true) ∧ t.mask = m) ∧
      (∀ (m : sigset_t), (do_bgfg_traced stoppedJobTable m ["bg", "5"]).st =
        (do_bgfg stoppedJobTable ["bg", "5"]).st) ∧
      (do_bgfg_traced stoppedJobTable sigemptyset ["bg", "5"]).log.map
          (fun e => (e.1, e.1.mutates, e.2 Signo.SIGCHLD)) =
        [(Act.setState BG, true, false)] ∧
      (do_bgfg_traced stoppedJobTable sigemptyset ["fg", "5"]).log.map
          (fun e => (e.1, e.1.mutates, e.2 Signo.SIGCHLD)) =
        [(Act.setState FG, true, false)] := by
  refine ⟨?_, ?_, ?_, by decide, by decide⟩
  · intro s m pid bg buf
    refine ⟨?_, ?_, rfl⟩
    · cases bg <;> simp [eval_traced, eval_parent]
    · intro e he
      simp only [eval_traced, List.mem_cons, List.mem_singleton, List.not_mem_nil, or_false] at he
      rcases he with he | he
      · rw [he]
        simp [sig_block, sigaddset]
      · rw [he]
        simp [sig_block, sigfillset]
  · intro s m pid status t ht
    cases status with
    | exited code =>
      simp only [reap_traced, Option.some.injEq] at ht
      rw [← ht]
      exact ⟨by intro e he; simp only [List.mem_singleton] at he; rw [he]; simp [sig_block, sigfillset], rfl⟩
    | signaled termsig =>
      simp only [reap_traced] at ht
      split at ht
      · exact absurd ht (by simp)
      · simp only [Option.some.injEq] at ht
        rw [← ht]
        exact ⟨by intro e he; simp only [List.mem_singleton] at he; rw [he]; simp [sig_block, sigfillset], rfl⟩
    | stopped stopsig =>
      simp only [reap_traced] at ht
      split at ht
      · exact absurd ht (by simp)
      · simp only [Option.some.injEq] at ht
        rw [← ht]
        exact ⟨by intro e he; simp only [List.mem_singleton] at he; rw [he]; simp [sig_block, sigfillset], rfl⟩
  · intro m
    rfl

theorem strchr_split_first (code : Nat) (u : List Char) (sep : Char) (v : List Char)
    (hu : ∀ x ∈ u, x.toNat ≠ code) (hsep : sep.toNat = code) :
    strchr_split code (u ++ sep :: v) = some (u, v) := by
  induction u with
  | nil => simp [strchr_split, hsep]
  | cons a l ih =>
    have ha : a.toNat ≠ code := hu a (List.mem_cons_self _ _)
    have hl := ih (fun x hx => hu x (List.mem_cons_of_mem _ hx))
    simp [strchr_split, ha, hl]

theorem skipSpaces_length_le (l : List Char) : (skipSpaces l).length ≤ l.length := by
  induction l with
  | nil => simp [skipSpaces]
  | cons a l ih =>
    unfold skipSpaces
    split
    · simp only [List.length_cons]; omega
    · exact le_refl _

theorem buildArgv_nil (n : Nat) : buildArgv n [] = [] := by
  cases n <;> simp [buildArgv, nextDelim]

theorem buildArgv_step (n : Nat) {buf arg rest : List Char}
    (h : nextDelim buf = some (arg, rest)) :
    buildArgv (n + 1) buf = arg :: buildArgv n (skipSpaces rest) := by
  simp only [buildArgv, h]

theorem nextDelim_word (c : Char) (l : List Char) (hc : c.toNat ≠ 39) :
    nextDelim (c :: l) = strchr_split 32 (c :: l) := by
  simp only [nextDelim, hc, if_false]

theorem split_at_first_space (cs : List Char) :
    (∀ x ∈ cs, x.toNat ≠ 32) ∨
      ∃ (w : List Char) (sep : Char) (r : List Char),
        cs = w ++ sep :: r ∧ (∀ x ∈ w, x.toNat ≠ 32) ∧ sep.toNat = 32 := by
  induction cs with
  | nil => left; intro x hx; exact absurd hx (List.not_mem_nil x)
  | cons a l ih =>
    by_cases ha : a.toNat = 32
    · right
      exact ⟨[], a, l, rfl, fun x hx => absurd hx (List.not_mem_nil x), ha⟩
    · rcases ih with hno | ⟨w, sep, r, hcs, hw, hsep⟩
      · left
        intro x hx
        rcases List.mem_cons.mp hx with he | hm
        · rw [he]; exact ha
        · exact hno x hm
      · right
        refine ⟨a :: w, sep, r, by rw [hcs]; rfl, ?_, hsep⟩
        intro x hx
        rcases List.mem_cons.mp hx with he | hm
        · rw [he]; exact ha
        · exact hw x hm

theorem specWords_nil : specWords [] = [] := by
  simp [specWords]

theorem specWords_cons_space (c : Char) (cs : List Char) (hc : c.toNat = 32) :
    specWords (c :: cs) = specWords cs := by
  simp [specWords, hc]

theorem specWords_single (u : List Char) (hu : ∀ x ∈ u, x.toNat ≠ 32) (hne : u ≠ []) :
    specWords u = [u] := by
  unfold specWords
  rw [List.splitOnP_eq_single _ _ (fun x hx => by simpa using hu x hx)]
  simp [hne]

theorem specWords_first (u : List Char) (sep : Char) (v : List Char)
    (hu : ∀ x ∈ u, x.toNat ≠ 32) (hsep : sep.toNat = 32) (hne : u ≠ []) :
    specWords (u ++ sep :: v) = u :: specWords v := by
  unfold specWords
  rw [List.splitOnP_first _ _ (fun x hx => by simpa using hu x hx) sep (by simpa using hsep)]
  simp [hne]

/-! ## Tables the shell can hold -/

theorem Held_WfReach {s : Shell} (h : Held s) : WfReach s := by
  induction h with
  | init verbose => exact WfReach.init verbose
  | add s pid state cmdline _ hpid _ hstate ih => exact WfReach.add s pid state cmdline ih hpid hstate
  | del s pid _ ih => exact WfReach.del s pid ih
  | stop s pid stopsig s1 out _ hr ih => exact WfReach.stop s pid stopsig s1 out ih hr
  | bgfg s argv _ ih => exact WfReach.bgfg s argv ih

theorem HeldInv_set_new {l : List job_t} {i : Nat} {x : job_t} (h : HeldInv l)
    (hx : x.pid ≠ 0) (hnew : ∀ j ∈ l, j.pid ≠ x.pid) : HeldInv (l.set i x) := by
  refine ⟨?_, ?_⟩
  · intro j hj hp
    rcases List.mem_or_eq_of_mem_set hj with hm | he
    · exact h.1 j hm hp
    · rw [he] at hp; exact absurd hp hx
  · intro a b ja jb ha hb hne he
    rcases getElem?_set_cases ha with ⟨ea, eja⟩ | ⟨_, ha'⟩
    · rcases getElem?_set_cases hb with ⟨eb, _⟩ | ⟨_, hb'⟩
      · rw [ea, eb]
      · rw [eja] at he
        exact absurd he.symm (hnew jb (List.mem_iff_getElem?.mpr ⟨b, hb'⟩))
    · rcases getElem?_set_cases hb with ⟨_, ejb⟩ | ⟨_, hb'⟩
      · rw [ejb] at he
        exact absurd he (hnew ja (List.mem_iff_getElem?.mpr ⟨a, ha'⟩))
      · exact h.2 a b ja jb ha' hb' hne he

theorem HeldInv_set_empty {l : List job_t} (i : Nat) (h : HeldInv l) :
    HeldInv (l.set i emptySlot) := by
  refine ⟨?_, ?_⟩
  · intro j hj hp
    rcases List.mem_or_eq_of_mem_set hj with hm | he
    · exact h.1 j hm hp
    · exact he
  · intro a b ja jb ha hb hne he
    rcases getElem?_set_cases ha with ⟨_, eja⟩ | ⟨_, ha'⟩
    · rw [eja] at hne; exact absurd rfl hne
    · rcases getElem?_set_cases hb with ⟨_, ejb⟩ | ⟨_, hb'⟩
      · rw [ejb] at he
        exact absurd he hne
      · exact h.2 a b ja jb ha' hb' hne he

theorem HeldInv_restate {jobs : List job_t} {pid : Int} {i : Nat} {job : job_t} (state : Int)
    (h : HeldInv jobs) (hg : getjobpid jobs pid = some (i, job)) :
    HeldInv (jobs.set i { job with state := state }) := by
  obtain ⟨hpid, hslot, hp⟩ := getjobpid_some hg
  have hold : ∀ (a : Nat) (ja : job_t), (jobs.set i { job with state := state })[a]? = some ja →
      ∃ ja', jobs[a]? = some ja' ∧ ja'.pid = ja.pid := by
    intro a ja ha
    rcases getElem?_set_cases ha with ⟨ea, eja⟩ | ⟨_, ha'⟩
    · exact ⟨job, by rw [ea]; exact hslot, by rw [eja]⟩
    · exact ⟨ja, ha', rfl⟩
  refine ⟨?_, ?_⟩
  · intro j hj hp0
    rcases List.mem_or_eq_of_mem_set hj with hm | he
    · exact h.1 j hm hp0
    · rw [he] at hp0
      have : job.pid = 0 := hp0
      omega
  · intro a b ja jb ha hb hne he
    obtain ⟨ja', ha', hpa⟩ := hold a ja ha
    obtain ⟨jb', hb', hpb⟩ := hold b jb hb
    exact h.2 a b ja' jb' ha' hb' (by rw [hpa]; exact hne) (by rw [hpa, hpb]; exact he)

theorem Held_inv {s : Shell} (h : Held s) : HeldInv s.jobs := by
  induction h with
  | init verbose =>
    have hall : ∀ j ∈ (initShell verbose).jobs, j = emptySlot := by
      intro j hj
      simp only [initShell, initjobs, MAXJOBS, List.map_replicate, clearjob] at hj
      exact List.eq_of_mem_replicate hj
    refine ⟨fun j hj _ => hall j hj, ?_⟩
    intro a b ja jb ha _ hne _
    have := hall ja (List.mem_iff_getElem?.mpr ⟨a, ha⟩)
    rw [this] at hne
    exact absurd rfl hne
  | add s pid state cmdline _ hpid hnew _ ih =>
    unfold addjob
    split
    · exact ih
    · split
      · exact HeldInv_set_new ih (show pid ≠ 0 by omega) hnew
      · exact ih
  | del s pid _ ih =>
    unfold deletejob
    split
    · exact ih
    · split
      · exact HeldInv_set_empty _ ih
      · exact ih
  | stop s pid stopsig s1 out _ hr ih =>
    simp only [reap_one] at hr
    split at hr
    · exact absurd hr (by simp)
    · rename_i i job hg
      simp only [Option.some.injEq, Prod.mk.injEq] at hr
      rw [← hr.1]
      exact HeldInv_restate ST ih hg
  | bgfg s argv _ ih =>
    unfold do_bgfg
    split
    · exact ih
    · split
      · exact ih
      · split
        · split
          · exact ih
          · rename_i i job hg
            split
            · exact HeldInv_restate BG ih hg
            · exact HeldInv_restate FG ih hg
        · exact ih

theorem Held_oneJobShell : Held oneJobShell :=
  Held.add (initShell false) 5 FG "sleep 5\n" (Held.init false) (by decide) (by decide)
    (Or.inl rfl)

/-- Claim C6: on every table the shell can hold, and for every pid: if some slot has
the pid and `pid >= 1`, `deletejob` returns 1, the first such slot becomes the empty slot,
every other slot is unchanged, and `nextjid` becomes the maximum jid over the remaining
occupied slots (0 when there is none) plus one; if `pid < 1` or no slot has the pid, it
returns 0 and the slots, `nextjid` and `verbose` are unchanged. -/
theorem deletejob_clears_and_rebases (s : Shell) (pid : Int) (h : Held s) :
    ((1 ≤ pid ∧ ∃ j ∈ s.jobs, j.pid = pid) →
      ∃ (i : Nat) (job : job_t), s.jobs[i]? = some job ∧ job.pid = pid ∧
        (∀ (k : Nat), k < i → ∀ (j' : job_t), s.jobs[k]? = some j' → j'.pid ≠ pid) ∧
        (deletejob s pid).ret = 1 ∧
        (deletejob s pid).st.jobs[i]? = some emptySlot ∧
        (∀ (k : Nat), k ≠ i → (deletejob s pid).st.jobs[k]? = s.jobs[k]?) ∧
        (deletejob s pid).st.nextjid = specMaxActiveJid (deletejob s pid).st.jobs + 1) ∧
    ((pid < 1 ∨ ∀ j ∈ s.jobs, j.pid ≠ pid) →
      (deletejob s pid).ret = 0 ∧ (deletejob s pid).st = s) := by
  have hinv := Held_inv h
  exact deletejob_rebases_of_free_jid s pid (fun j hj hp => by
    rw [hinv.1 j hj hp]; decide)

/-- Witness for C6: the reaping of the only job, pid 5, after its launch. -/
theorem deletejob_clears_and_rebases_witness :
    Held oneJobShell ∧ ((1 : Int) ≤ 5 ∧ ∃ j ∈ oneJobShell.jobs, j.pid = 5) ∧
      ∃ (i : Nat) (job : job_t), oneJobShell.jobs[i]? = some job ∧ job.pid = 5 ∧
        (∀ (k : Nat), k < i → ∀ (j' : job_t), oneJobShell.jobs[k]? = some j' → j'.pid ≠ 5) ∧
        (deletejob oneJobShell 5).ret = 1 ∧
        (deletejob oneJobShell 5).st.jobs[i]? = some emptySlot ∧
        (∀ (k : Nat), k ≠ i → (deletejob oneJobShell 5).st.jobs[k]? = oneJobShell.jobs[k]?) ∧
        (deletejob oneJobShell 5).st.nextjid =
          specMaxActiveJid (deletejob oneJobShell 5).st.jobs + 1 :=
  ⟨Held_oneJobShell, ⟨by decide, by decide⟩,
    (deletejob_clears_and_rebases oneJobShell 5 Held_oneJobShell).1 ⟨by decide, by decide⟩⟩

/-- Claim C7: on every table the shell can hold in which pid is tracked with state `FG`
(slot `i`), the reaper's run on a stop status with stop signal n for pid prints
"Job [jid] (pid) stopped by signal n", leaves that slot with the same pid, jid and command
text and state `ST`, leaves every other slot and `nextjid` unchanged, and afterwards
`fgpid(jobs) != pid`, so the condition of `waitfg(pid)` is false. -/
theorem stop_demotes_foreground_job (s : Shell) (pid stopsig : Int) (i : Nat) (job : job_t)
    (h : Held s) (hslot : s.jobs[i]? = some job) (hp : job.pid = pid) (hfg : job.state = FG) :
    ∃ s1, sigchld_handler s [(pid, Status.stopped stopsig)] =
        some (s1, ["Job [" ++ toString job.jid ++ "] (" ++ toString pid
          ++ ") stopped by signal " ++ toString stopsig ++ "\n"]) ∧
      s1.jobs[i]? = some { pid := pid, jid := job.jid, state := ST, cmdline := job.cmdline } ∧
      (∀ (k : Nat), k ≠ i → s1.jobs[k]? = s.jobs[k]?) ∧
      s1.nextjid = s.nextjid ∧
      fgpid s1.jobs ≠ pid ∧
      waitfg_cond s1.jobs pid = false := by
  have hinv := Held_inv h
  have hok := (WfReach_inv (Held_WfReach h)).1 job (List.mem_iff_getElem?.mpr ⟨i, hslot⟩)
  have hpos : 0 < job.pid := by
    rcases hok with ⟨_, _, hst⟩ | ⟨hpos, _, _⟩
    · rw [hfg] at hst
      exact absurd hst (by decide)
    · exact hpos
  refine stop_demotes_only_slot s pid stopsig i job (by omega) hslot hp hfg ?_
  intro k j' hk hj'
  exact (hinv.2 i k job j' hslot hk (by omega) (by rw [hp, hj'])).symm

/-- Witness for C7: the foreground job with pid 5 is stopped by signal 20. -/
theorem stop_demotes_foreground_job_witness :
    Held oneJobShell ∧
      oneJobShell.jobs[0]? = some { pid := 5, jid := 1, state := FG, cmdline := "sleep 5\n" } ∧
      ∃ s1, sigchld_handler oneJobShell [(5, Status.stopped 20)] =
          some (s1, ["Job [" ++ toString (1 : Int) ++ "] (" ++ toString (5 : Int)
            ++ ") stopped by signal " ++ toString (20 : Int) ++ "\n"]) ∧
        s1.jobs[0]? = some { pid := 5, jid := 1, state := ST, cmdline := "sleep 5\n" } ∧
        (∀ (k : Nat), k ≠ 0 → s1.jobs[k]? = oneJobShell.jobs[k]?) ∧
        s1.nextjid = oneJobShell.nextjid ∧
        fgpid s1.jobs ≠ 5 ∧
        waitfg_cond s1.jobs 5 = false :=
  ⟨Held_oneJobShell, by decide,
    stop_demotes_foreground_job oneJobShell 5 20 0
      { pid := 5, jid := 1, state := FG, cmdline := "sleep 5\n" } Held_oneJobShell
      (by decide) rfl rfl⟩

theorem isDigit_toNat {c : Char} (h : c.isDigit = true) : 48 ≤ c.toNat ∧ c.toNat ≤ 57 := by
  simp only [Char.isDigit, Bool.and_eq_true, decide_eq_true_eq] at h
  exact ⟨h.1, h.2⟩

theorem isspace_of_isDigit {c : Char} (h : c.isDigit = true) : isspace c = false := by
  have := isDigit_toNat h
  simp only [isspace, Bool.or_eq_false_iff, Bool.and_eq_false_iff, decide_eq_false_iff_not]
  omega

theorem digits_foldl_cast (ds : List Char) (a : Nat) :
    ds.foldl (fun acc c => 10 * acc + ((c.toNat - 48 : Nat) : Int)) (a : Int) =
      ((ds.foldl (fun n c => n * 10 + (c.toNat - (Char.ofNat 48).toNat)) a : Nat) : Int) := by
  induction ds generalizing a with
  | nil => rfl
  | cons d l ih =>
    simp only [List.foldl_cons]
    have h48 : (Char.ofNat 48).toNat = 48 := by decide
    rw [h48]
    have : (10 * (a : Int) + ((d.toNat - 48 : Nat) : Int)) = ((a * 10 + (d.toNat - 48) : Nat) : Int) := by
      push_cast
      ring
    rw [this, ih]
    rw [h48]

theorem sscanf_d_of_digits (arg : String) (hne : arg.toList ≠ [])
    (hdig : ∀ c ∈ arg.toList, c.isDigit = true) :
    sscanf_d arg = some (toInt32 (clampLong
      ((arg.toList.foldl (fun n c => n * 10 + (c.toNat - (Char.ofNat 48).toNat)) 0 : Nat) : Int))) := by
  obtain ⟨d, l, hdl⟩ : ∃ d l, arg.toList = d :: l := by
    cases h : arg.toList with
    | nil => exact absurd h hne
    | cons d l => exact ⟨d, l, rfl⟩
  have hd := hdig d (by rw [hdl]; exact List.mem_cons_self _ _)
  have hdn := isDigit_toNat hd
  have hdrop : arg.toList.dropWhile isspace = d :: l := by
    rw [hdl]
    exact List.dropWhile_cons_of_neg (by rw [isspace_of_isDigit hd]; simp)
  have htake : (d :: l).takeWhile Char.isDigit = d :: l := by
    rw [List.takeWhile_eq_self_iff]
    intro c hc
    exact hdig c (by rw [hdl]; exact hc)
  have h45 : ¬ d.toNat = 45 := by omega
  have h43 : ¬ d.toNat = 43 := by omega
  have hcast := digits_foldl_cast (d :: l) 0
  simp only [Nat.cast_zero] at hcast
  simp only [sscanf_d, hdrop, h45, h43, decide_False, Bool.or_self, Bool.false_eq_true, if_false,
    htake, List.isEmpty_cons, hcast]
  rw [hdl]

theorem toInt32_clampLong_of_range (v : Int) (h1 : -2147483648 ≤ v) (h2 : v < 2147483648) :
    toInt32 (clampLong v) = v := by
  have hc : clampLong v = v := by
    unfold clampLong
    rw [if_neg (by omega), if_neg (by omega)]
  rw [hc]
  unfold toInt32
  omega

theorem sscanf_d_of_toNat? (arg : String) (k : Nat) (h : arg.toNat? = some k)
    (hk : k < 2147483648) : sscanf_d arg = some (k : Int) := by
  unfold String.toNat? at h
  split at h
  · rename_i hnat
    simp only [String.isNat, Bool.and_eq_true, Bool.not_eq_true', String.all_eq,
      List.all_eq_true] at hnat
    have hne : arg.toList ≠ [] := by
      intro he
      have : arg = "" := String.ext he
      rw [this] at hnat
      exact absurd hnat.1 (by decide)
    simp only [Option.some.injEq, String.foldl_eq] at h
    rw [sscanf_d_of_digits arg hne hnat.2]
    have hk' : arg.toList.foldl (fun n c => n * 10 + (c.toNat - (Char.ofNat 48).toNat)) 0 = k := h
    rw [hk', toInt32_clampLong_of_range (k : Int) (by omega) (by omega)]
  · exact absurd h (by simp)

theorem sscanf_d_none_of_head (arg : String)
    (h : ∀ (c : Char), arg.toList.head? = some c →
      isspace c = false ∧ c.toNat ≠ 45 ∧ c.toNat ≠ 43 ∧ c.isDigit = false) :
    sscanf_d arg = none := by
  cases hl : arg.toList with
  | nil =>
    simp only [sscanf_d, hl, List.dropWhile_nil, List.takeWhile_nil, List.isEmpty_nil, if_true]
  | cons c l =>
    obtain ⟨h1, h2, h3, h4⟩ := h c (by rw [hl]; rfl)
    have hdrop : (c :: l).dropWhile isspace = c :: l :=
      List.dropWhile_cons_of_neg (by rw [h1]; simp)
    have htake : (c :: l).takeWhile Char.isDigit = [] := by
      simp [List.takeWhile_cons, h4]
    simp only [sscanf_d, hl, hdrop, h2, h3, decide_False, Bool.or_self, Bool.false_eq_true,
      if_false, htake, List.isEmpty_nil, if_true]

theorem toNat?_eq_list (arg : String) :
    arg.toNat? =
      if arg.toList ≠ [] ∧ ∀ c ∈ arg.toList, c.isDigit = true then
        some (arg.toList.foldl (fun n c => n * 10 + (c.toNat - (Char.ofNat 48).toNat)) 0)
      else none := by
  have hiff : arg.isNat = true ↔ (arg.toList ≠ [] ∧ ∀ c ∈ arg.toList, c.isDigit = true) := by
    simp only [String.isNat, Bool.and_eq_true, Bool.not_eq_true', String.all_eq,
      List.all_eq_true]
    constructor
    · rintro ⟨h1, h2⟩
      refine ⟨?_, h2⟩
      intro he
      have : arg = "" := String.ext he
      rw [this] at h1
      exact absurd h1 (by decide)
    · rintro ⟨h1, h2⟩
      refine ⟨?_, h2⟩
      cases hb : arg.isEmpty with
      | false => rfl
      | true =>
        have : arg = "" := (String.isEmpty_iff arg).mp hb
        rw [this] at h1
        exact absurd rfl h1
  unfold String.toNat?
  by_cases h : arg.isNat = true
  · rw [if_pos h, if_pos (hiff.mp h), String.foldl_eq]
    rfl
  · rw [if_neg h, if_neg (fun hh => h (hiff.mpr hh))]
/-- Counterexample for C14: the table after the foreground launch of pid 5 and its stop
holds one job, with jid 1.  The integer 5 is the job id of no job, yet `bg 5` does not
report "No such job": it sends `SIGCONT` to the group -5 and sets the job to `BG`, because
`do_bgfg` looks the number up as a pid. -/
theorem bg_number_that_is_no_job_id :
    (sigchld_handler oneJobShell [(5, Status.stopped 20)]).map (fun r => r.1) =
        some stoppedJobTable ∧
      (∀ j ∈ stoppedJobTable.jobs, j.jid ≠ 5) ∧
      (do_bgfg stoppedJobTable ["bg", "5"]).effects = [Effect.kill (-5) Signo.SIGCONT] ∧
      (do_bgfg stoppedJobTable ["bg", "5"]).st.jobs[0]? =
        some { pid := 5, jid := 1, state := BG, cmdline := "sleep 5\n" } := by
  decide

/-- Claim C14, amended: for `argv[0]` equal to "bg" or "fg": with no argument, or with an
argument that does not start with an integer (`sscanf` reads none; in particular an empty
argument or one whose first character is neither white space, a sign nor a digit),
`do_bgfg` prints "<name> command requires PID argument"; with an integer that is below 1
or is the pid of no slot (the integer as `sscanf` stores it; in particular a decimal
numeral below 2^31) it prints "No such job"; in all these cases there is no `kill`, no
`waitfg`, and the globals are unchanged. -/
theorem invalid_bgfg_changes_nothing (s : Shell) (name : String)
    (hname : name = "bg" ∨ name = "fg") :
    do_bgfg s [name] =
        { st := s, effects := [Effect.print (name ++ " command requires PID argument\n")],
          wait := none } ∧
      (∀ (arg : String) (more : List String), sscanf_d arg = none →
        do_bgfg s (name :: arg :: more) =
          { st := s, effects := [Effect.print (name ++ " command requires PID argument\n")],
            wait := none }) ∧
      (∀ (arg : String) (more : List String),
        (∀ (c : Char), arg.toList.head? = some c →
          isspace c = false ∧ c.toNat ≠ 45 ∧ c.toNat ≠ 43 ∧ c.isDigit = false) →
        do_bgfg s (name :: arg :: more) =
          { st := s, effects := [Effect.print (name ++ " command requires PID argument\n")],
            wait := none }) ∧
      (∀ (arg : String) (more : List String) (n : Int), sscanf_d arg = some n →
        (n < 1 ∨ ∀ j ∈ s.jobs, j.pid ≠ n) →
        do_bgfg s (name :: arg :: more) =
          { st := s, effects := [Effect.print "No such job\n"], wait := none }) ∧
      (∀ (arg : String) (more : List String) (k : Nat), arg.toNat? = some k →
        k < 2147483648 → (k = 0 ∨ ∀ j ∈ s.jobs, j.pid ≠ (k : Int)) →
        do_bgfg s (name :: arg :: more) =
          { st := s, effects := [Effect.print "No such job\n"], wait := none }) := by
  have _hn : name = "bg" ∨ name = "fg" := hname
  have hnone : ∀ (arg : String) (more : List String), sscanf_d arg = none →
      do_bgfg s (name :: arg :: more) =
        { st := s, effects := [Effect.print (name ++ " command requires PID argument\n")],
          wait := none } := by
    intro arg more harg
    simp only [do_bgfg, harg]
  have hsome : ∀ (arg : String) (more : List String) (n : Int), sscanf_d arg = some n →
      (n < 1 ∨ ∀ j ∈ s.jobs, j.pid ≠ n) →
      do_bgfg s (name :: arg :: more) =
        { st := s, effects := [Effect.print "No such job\n"], wait := none } := by
    intro arg more n harg hno
    have hg : getjobpid s.jobs n = none := by
      unfold getjobpid
      rcases hno with hlt | hno
      · rw [if_pos hlt]
      · split
        · rfl
        · rw [findSlot_none_iff]
          intro j hj
          simpa using hno j hj
    simp only [do_bgfg, harg, hg]
  refine ⟨rfl, hnone, ?_, hsome, ?_⟩
  · intro arg more hhead
    exact hnone arg more (sscanf_d_none_of_head arg hhead)
  · intro arg more k hk hlt hno
    refine hsome arg more (k : Int) (sscanf_d_of_toNat? arg k hk hlt) ?_
    rcases hno with h0 | hno
    · left; omega
    · right; exact hno

/-- Witness for C14 amended: `fg 7`, `fg 0`, `fg -5`, `fg x7` and `fg` alone on the table
with the one job of pid 5. -/
theorem invalid_bgfg_changes_nothing_witness :
    (("fg" : String) = "bg" ∨ ("fg" : String) = "fg") ∧
      do_bgfg oneJobShell ["fg", "7"] =
        { st := oneJobShell, effects := [Effect.print "No such job\n"], wait := none } ∧
      do_bgfg oneJobShell ["fg", "0"] =
        { st := oneJobShell, effects := [Effect.print "No such job\n"], wait := none } ∧
      do_bgfg oneJobShell ["fg", "-5"] =
        { st := oneJobShell, effects := [Effect.print "No such job\n"], wait := none } ∧
      do_bgfg oneJobShell ["fg", "x7"] =
        { st := oneJobShell, effects := [Effect.print "fg command requires PID argument\n"],
          wait := none } ∧
      do_bgfg oneJobShell ["fg"] =
        { st := oneJobShell, effects := [Effect.print "fg command requires PID argument\n"],
          wait := none } :=
  ⟨Or.inr rfl,
    (invalid_bgfg_changes_nothing oneJobShell "fg" (Or.inr rfl)).2.2.2.2 "7" [] 7
      (by rw [toNat?_eq_list]; decide) (by decide) (Or.inr (by decide)),
    (invalid_bgfg_changes_nothing oneJobShell "fg" (Or.inr rfl)).2.2.2.2 "0" [] 0
      (by rw [toNat?_eq_list]; decide) (by decide) (Or.inl rfl),
    (invalid_bgfg_changes_nothing oneJobShell "fg" (Or.inr rfl)).2.2.2.1 "-5" [] (-5)
      (by decide) (Or.inl (by decide)),
    (invalid_bgfg_changes_nothing oneJobShell "fg" (Or.inr rfl)).2.2.1 "x7" []
      (by decide),
    (invalid_bgfg_changes_nothing oneJobShell "fg" (Or.inr rfl)).1⟩

/-- The argument "4294967301" of bg is stored as the `int` 5 and resumes the job with
pid 5. -/
theorem bg_argument_is_stored_as_int :
    sscanf_d "4294967301" = some 5 ∧
      (do_bgfg stoppedJobTable ["bg", "4294967301"]).effects =
        [Effect.kill (-5) Signo.SIGCONT] := by
  decide
/-! ## The arguments parseline builds -/

theorem buildArgv_eq_specWords (k : Nat) :
    ∀ (body : List Char), body.length ≤ k →
      (∀ w ∈ specWords body, w.head?.map Char.toNat ≠ some 39) →
      ∀ (fuel : Nat) (sep : Char), sep.toNat = 32 →
        (skipSpaces (body ++ [sep])).length ≤ fuel →
        buildArgv (fuel + 1) (skipSpaces (body ++ [sep])) = specWords body := by
  induction k with
  | zero =>
    intro body hlen _ fuel sep hsep _
    have hb : body = [] := List.length_eq_zero.mp (by omega)
    subst hb
    simp [skipSpaces, hsep, buildArgv, nextDelim, specWords_nil]
  | succ k ih =>
    intro body hlen hq fuel sep hsep hfuel
    cases body with
    | nil => simp [skipSpaces, hsep, buildArgv, nextDelim, specWords_nil]
    | cons c cs =>
      simp only [List.length_cons] at hlen
      by_cases hc : c.toNat = 32
      · rw [specWords_cons_space c cs hc] at hq ⊢
        have hskip : skipSpaces (c :: cs ++ [sep]) = skipSpaces (cs ++ [sep]) := by
          simp [skipSpaces, hc]
        rw [hskip] at hfuel ⊢
        exact ih cs (by omega) hq fuel sep hsep hfuel
      · have hskip : skipSpaces (c :: cs ++ [sep]) = c :: (cs ++ [sep]) := by
          simp [skipSpaces, hc]
        rw [hskip] at hfuel ⊢
        simp only [List.length_cons, List.length_append, List.length_nil] at hfuel
        obtain ⟨fuel1, hf1⟩ : ∃ f, fuel = f + 1 := ⟨fuel - 1, by omega⟩
        subst hf1
        rcases split_at_first_space cs with hno | ⟨w, s, r, hcs, hw, hs⟩
        · have hword : ∀ x ∈ c :: cs, x.toNat ≠ 32 := by
            intro x hx
            rcases List.mem_cons.mp hx with he | hm
            · rw [he]; exact hc
            · exact hno x hm
          have hsplit : strchr_split 32 (c :: (cs ++ [sep])) = some (c :: cs, []) :=
            strchr_split_first 32 (c :: cs) sep [] hword hsep
          rw [specWords_single (c :: cs) hword (List.cons_ne_nil _ _)] at hq ⊢
          have hc39 : c.toNat ≠ 39 := by
            have := hq (c :: cs) (List.mem_singleton.mpr rfl)
            simpa using this
          rw [buildArgv_step _ ((nextDelim_word c _ hc39).trans hsplit)]
          simp only [skipSpaces, buildArgv_nil]
        · have hword : ∀ x ∈ c :: w, x.toNat ≠ 32 := by
            intro x hx
            rcases List.mem_cons.mp hx with he | hm
            · rw [he]; exact hc
            · exact hw x hm
          have hshape : c :: (cs ++ [sep]) = (c :: w) ++ s :: (r ++ [sep]) := by
            rw [hcs]; simp
          have hsplit : strchr_split 32 (c :: (cs ++ [sep])) = some (c :: w, r ++ [sep]) := by
            rw [hshape]
            exact strchr_split_first 32 (c :: w) s (r ++ [sep]) hword hs
          have hbody : c :: cs = (c :: w) ++ s :: r := by rw [hcs]; rfl
          rw [hbody, specWords_first (c :: w) s r hword hs (List.cons_ne_nil _ _)] at hq
          rw [hbody, specWords_first (c :: w) s r hword hs (List.cons_ne_nil _ _)]
          have hc39 : c.toNat ≠ 39 := by
            have := hq (c :: w) (List.mem_cons_self _ _)
            simpa using this
          have hrlen : r.length < cs.length := by
            rw [hcs]; simp only [List.length_append, List.length_cons]; omega
          have hskiplen := skipSpaces_length_le (r ++ [sep])
          simp only [List.length_append, List.length_cons, List.length_nil] at hskiplen
          have hrec := ih r (by omega) (fun w' hw' => hq w' (List.mem_cons_of_mem _ hw'))
            fuel1 sep hsep (by omega)
          rw [buildArgv_step _ ((nextDelim_word c _ hc39).trans hsplit), hrec]

theorem buildArgv_fuel (body : List Char)
    (hq : ∀ w ∈ specWords body, w.head?.map Char.toNat ≠ some 39) (sep : Char)
    (hsep : sep.toNat = 32) :
    buildArgv ((skipSpaces (body ++ [sep])).length + 1) (skipSpaces (body ++ [sep])) =
      specWords body :=
  buildArgv_eq_specWords body.length body (le_refl _) hq _ sep hsep (le_refl _)

theorem firstIsAmp_iff (w : List Char) :
    firstIsAmp w = true ↔ w.head?.map Char.toNat = some 38 := by
  cases w with
  | nil => simp [firstIsAmp]
  | cons c l => simp [firstIsAmp]

/-- Counterexample for C17: in "ls &x" the last space-separated argument is "&x", not
the token "&", and in "echo '&'" it is "'&'"; `parseline` returns true for both lines and
removes the last argument. -/
theorem parseline_tests_first_character :
    (specWords "ls &x".toList).map String.mk = ["ls", "&x"] ∧
      parseline "ls &x\n" = some (true, ["ls"]) ∧
      (specWords "echo '&'".toList).map String.mk = ["echo", "'&'"] ∧
      parseline "echo '&'\n" = some (true, ["echo"]) := by
  decide

/-- Claim C17, amended: for a command line `body` followed by a newline, shorter than
`MAXLINE` characters, with at least one and fewer than `MAXARGS` space-separated
arguments, none of which begins with a single quote, `parseline` returns true exactly
when the last argument begins with `&` (code 38; only its first character is tested);
then that argument is removed from the argument list; otherwise it returns false and the
argument list is the full list of arguments. -/
theorem parseline_background_flag (body : List Char)
    (hline : body.length + 1 < MAXLINE)
    (hquote : ∀ w ∈ specWords body, w.head?.map Char.toNat ≠ some 39)
    (hargs : specWords body ≠ []) (hmax : (specWords body).length < MAXARGS) :
    ∃ (bg : Bool) (argv : List String),
      parseline (String.mk (body ++ [Char.ofNat 10])) = some (bg, argv) ∧
      (bg = true ↔ ((specWords body).getLast hargs).head?.map Char.toNat = some 38) ∧
      (bg = true → argv = (specWords body).dropLast.map String.mk) ∧
      (bg = false → argv = (specWords body).map String.mk) := by
  have hlist : (String.mk (body ++ [Char.ofNat 10])).toList = body ++ [Char.ofNat 10] := rfl
  have hbuf : (body ++ [Char.ofNat 10]).dropLast = body := List.dropLast_concat
  have hargv := buildArgv_fuel body hquote (Char.ofNat 32) (by decide)
  have hnonempty : (body ++ [Char.ofNat 10]).isEmpty = false := by
    cases body <;> rfl
  have hlen : ¬ MAXLINE ≤ (body ++ [Char.ofNat 10]).length := by
    simp only [List.length_append, List.length_cons, List.length_nil]
    omega
  have hmax' : ¬ MAXARGS ≤ (specWords body).length := by omega
  by_cases hamp : firstIsAmp ((specWords body).getLast hargs) = true
  · refine ⟨true, (specWords body).dropLast.map String.mk, ?_, ?_, fun _ => rfl,
      fun h => absurd h (by decide)⟩
    · simp only [parseline, hlist, hnonempty, hlen, hbuf, hargv, hmax',
        List.getLast?_eq_getLast _ hargs, hamp, decide_False, Bool.or_self,
        Bool.false_eq_true, if_false, if_true]
    · exact ⟨fun _ => (firstIsAmp_iff _).mp hamp, fun _ => rfl⟩
  · refine ⟨false, (specWords body).map String.mk, ?_, ?_, fun h => absurd h (by decide),
      fun _ => rfl⟩
    · simp only [parseline, hlist, hnonempty, hlen, hbuf, hargv, hmax',
        List.getLast?_eq_getLast _ hargs, hamp, decide_False, Bool.or_self,
        Bool.false_eq_true, if_false]
    · exact ⟨fun h => absurd h (by decide), fun h => absurd ((firstIsAmp_iff _).mpr h) hamp⟩

/-- Witness for C17 amended: the line "ls -l &" returns true with the arguments "ls" and
"-l"; the line "ls don't" returns false with both arguments. -/
theorem parseline_background_flag_witness :
    ("ls -l &".toList.length + 1 < MAXLINE) ∧
      (∀ w ∈ specWords "ls -l &".toList, w.head?.map Char.toNat ≠ some 39) ∧
      specWords "ls -l &".toList ≠ [] ∧ (specWords "ls -l &".toList).length < MAXARGS ∧
      parseline "ls -l &\n" = some (true, ["ls", "-l"]) ∧
      parseline "ls don't\n" = some (false, ["ls", "don't"]) ∧
      (∃ (bg : Bool) (argv : List String),
        parseline (String.mk ("ls don't".toList ++ [Char.ofNat 10])) = some (bg, argv) ∧
        (bg = true ↔
          ((specWords "ls don't".toList).getLast (by decide)).head?.map Char.toNat = some 38) ∧
        (bg = true → argv = (specWords "ls don't".toList).dropLast.map String.mk) ∧
        (bg = false → argv = (specWords "ls don't".toList).map String.mk)) :=
  ⟨by decide, by decide, by decide, by decide, by decide, by decide,
    parseline_background_flag "ls don't".toList (by decide) (by decide) (by decide)
      (by decide)⟩
set_option maxRecDepth 100000 in
/-- A line of 128 one-letter arguments (256 characters with its newline): the loop of
`parseline` writes `argv[128]`, outside the caller's `char *argv[MAXARGS]`; with 127
arguments all writes are inside. -/
theorem parseline_overruns_argv :
    parseline (String.mk ((List.replicate 128 [Char.ofNat 97, Char.ofNat 32]).flatten.dropLast
        ++ [Char.ofNat 10])) = none ∧
      (parseline (String.mk ((List.replicate 127 [Char.ofNat 97, Char.ofNat 32]).flatten.dropLast
        ++ [Char.ofNat 10]))).map (fun r => (r.1, r.2.length)) = some (false, 127) := by
  decide

end Tsh
